import Mathlib

/-!
# Verification of the WFC terrain generator

Shallow embedding of the terrain generator (wave-function-collapse tile
solver, heightfield synthesis, biome classification, OBJ mesh export) and
proofs of the specified properties.

Modelling conventions:
* Python floats are modelled as exact rationals.
* The shared random source is modelled by an abstract oracle `Env S`: an
  arbitrary state type `S` together with the primitive draws the program
  performs (`random.uniform`, `random.gauss`, the index drawn by
  `random.choice`) and the two irrational numeric primitives the program
  uses (`math.log`, `math.hypot`).  Every stochastic function threads the
  state explicitly, in the same order as the source consumes the rng.
* Python `set` iteration order is fixed to the tile-catalog order
  (`tileOrder`); set contents never depend on it, only iteration does.
* A Python runtime error (KeyError / IndexError / ZeroDivisionError) is
  modelled by `Option.none` at the function that raises.
-/

namespace Terrain

/-- Abstract random/numeric oracle threading an explicit state `S`.
`uniform a b` models `rng.uniform(a, b)`, `gauss mu sigma` models
`rng.gauss(mu, sigma)`, `choose n` models the index drawn by
`rng.choice` on a list of length `n`, `qlog` models `math.log` and
`qhypot` models `math.hypot`; `seedInit` models `random.Random(seed)`. -/
structure Env (S : Type) where
  uniform : ℚ → ℚ → S → ℚ × S
  gauss : ℚ → ℚ → S → ℚ × S
  choose : Nat → S → Nat × S
  qlog : ℚ → ℚ
  qhypot : ℤ → ℤ → ℚ
  seedInit : ℤ → S

/-- `PlanetProfile` dataclass from the source. -/
structure PlanetProfile where
  name : String
  mean : ℚ
  stdev : ℚ
  roughness : ℚ
  weight : ℚ
deriving DecidableEq

/-- `TileType` dataclass from the source. -/
structure TileType where
  name : String
  height_range : ℚ × ℚ
  allowed_neighbors : List String
  weight : ℚ
deriving DecidableEq

/-- `PLANET_PROFILES` table from the source. -/
def PLANET_PROFILES : List PlanetProfile :=
  [ ⟨"Earth", 200, 1200, 6/10, 1⟩,
    ⟨"Mars", -800, 2500, 7/10, 9/10⟩,
    ⟨"Moon", 0, 1700, 8/10, 7/10⟩,
    ⟨"Venus", 0, 1100, 5/10, 6/10⟩,
    ⟨"Mercury", 100, 2000, 9/10, 6/10⟩,
    ⟨"Europa", -300, 800, 4/10, 5/10⟩,
    ⟨"Titan", -500, 900, 4/10, 5/10⟩ ]

/-- `TILE_TYPES` table from the source, as an association list in the
(insertion-ordered) order of the Python dict. -/
def TILE_TYPES : List (String × TileType) :=
  [ ("ocean", ⟨"ocean", (-6000, -200), ["ocean", "shore", "lowland"], 1⟩),
    ("shore", ⟨"shore", (-200, 50), ["ocean", "shore", "lowland"], 11/10⟩),
    ("lowland", ⟨"lowland", (0, 800), ["shore", "lowland", "highland"], 14/10⟩),
    ("highland", ⟨"highland", (400, 2000), ["lowland", "highland", "mountain"], 1⟩),
    ("mountain", ⟨"mountain", (1500, 6500), ["highland", "mountain", "polar"], 7/10⟩),
    ("polar", ⟨"polar", (0, 3000),
      ["ocean", "shore", "lowland", "highland", "mountain", "polar"], 4/10⟩) ]

/-- The tile vocabulary in catalog order; used as the canonical iteration
order for Python sets of tile names. -/
def tileOrder : List String := TILE_TYPES.map Prod.fst

/-- The tile vocabulary (`TILE_TYPES.keys()`) as a finite set. -/
def vocab : Finset String := tileOrder.toFinset

/-- Dictionary lookup `TILE_TYPES[name]`. -/
def lookupTile (n : String) : Option TileType := TILE_TYPES.lookup n

variable {S : Type}

/-- Inner accumulation loop of `_weighted_choice`: walk the items adding
weights, returning the first name whose running sum reaches `pick`. -/
def weightedLoop (pick : ℚ) (current : ℚ) : List (String × ℚ) → Option String
  | [] => none
  | (n, w) :: rest => if pick ≤ current + w then some n else weightedLoop pick (current + w) rest

/-- `_weighted_choice` from the source.  On an empty item list the Python
code would raise IndexError at `items[-1]`; that unreachable case is
totalised with the empty string. -/
def weighted_choice (env : Env S) (items : List (String × ℚ)) (s : S) : String × S :=
  let total := (items.map Prod.snd).sum
  let p := env.uniform 0 total s
  match weightedLoop p.1 0 items with
  | some n => (n, p.2)
  | none => (((items.getLast?).map Prod.fst).getD "", p.2)

/-- Profile-selection walk inside `_planet_sample` (`current += w;
if current >= pick: selected = profile; break`). -/
def profileWalk (pick : ℚ) (current : ℚ) : List PlanetProfile → Option PlanetProfile
  | [] => none
  | p :: rest => if pick ≤ current + p.weight then some p else profileWalk pick (current + p.weight) rest

/-- Fallback profile used to totalise `profiles[-1]` on an empty profile
list (unreachable: the program always passes `PLANET_PROFILES`). -/
def dummyProfile : PlanetProfile := ⟨"", 0, 1, 0, 0⟩

/-- `_planet_sample` from the source: pick a profile by weighted draw
(default `profiles[-1]`), then add two Gaussian draws. -/
def planet_sample (env : Env S) (profiles : List PlanetProfile) (s : S) : ℚ × S :=
  let total := (profiles.map PlanetProfile.weight).sum
  let p := env.uniform 0 total s
  let selected := (profileWalk p.1 0 profiles).getD (profiles.getLastD dummyProfile)
  let b := env.gauss selected.mean selected.stdev p.2
  let r := env.gauss 0 (selected.stdev * selected.roughness) b.2
  (b.1 + r.1, r.2)

/-- Draw `n` consecutive planet samples
(`[_planet_sample(rng, planet_profiles) for _ in range(n)]`). -/
def drawSamples (env : Env S) : Nat → S → List ℚ × S
  | 0, s => ([], s)
  | n + 1, s =>
    let p := planet_sample env PLANET_PROFILES s
    let rest := drawSamples env n p.2
    (p.1 :: rest.1, rest.2)

/-- Number of samples falling inclusively inside the tile's height range. -/
def countMatches (tile : TileType) (samples : List ℚ) : Nat :=
  (samples.filter (fun q => decide (tile.height_range.1 ≤ q) && decide (q ≤ tile.height_range.2))).length

/-- Recursive core of `_initial_tile_weights`: iterate the catalog in
order, drawing 30 samples per tile and flooring the matched fraction
at 5 percent. -/
def tileWeightsAux (env : Env S) : List (String × TileType) → S → List (String × ℚ) × S
  | [], s => ([], s)
  | (n, tile) :: rest, s =>
    let dr := drawSamples env 30 s
    let m := countMatches tile dr.1
    let tl := tileWeightsAux env rest dr.2
    ((n, tile.weight * max (1/20) ((m : ℚ) / 30)) :: tl.1, tl.2)

/-- `_initial_tile_weights` from the source. -/
def initial_tile_weights (env : Env S) (s : S) : List (String × ℚ) × S :=
  tileWeightsAux env TILE_TYPES s

/-- Empirical weight lookup `tile_weights[name]` (total: the solver only
looks up names present in the table). -/
def weightOf (ws : List (String × ℚ)) (n : String) : ℚ := (ws.lookup n).getD 0

/-- `_neighbors` from the source: in-bounds 4-connected neighbors of
`(x, y)`, in the order `(+1,0), (-1,0), (0,+1), (0,-1)`. -/
def neighborsOf (x y w h : Nat) : List (Nat × Nat) :=
  (if x + 1 < w ∧ y < h then [(x + 1, y)] else []) ++
  (if 0 < x ∧ x - 1 < w ∧ y < h then [(x - 1, y)] else []) ++
  (if x < w ∧ y + 1 < h then [(x, y + 1)] else []) ++
  (if x < w ∧ 0 < y ∧ y - 1 < h then [(x, y - 1)] else [])

/-- The mutable grid of candidate sets: `height` rows of `width` cells. -/
abbrev Grid := List (List (Finset String))

/-- Read `grid[y][x]` (out-of-range reads give the empty set; the solver
only reads in-range cells). -/
def cellAt (g : Grid) (x y : Nat) : Finset String := (g.getD y []).getD x ∅

/-- Write `grid[y][x] = v` (no-op when out of range, as `List.set` is). -/
def setCell (g : Grid) (x y : Nat) (v : Finset String) : Grid :=
  g.set y ((g.getD y []).set x v)

/-- Initial grid: every cell holds the full tile vocabulary. -/
def initGrid (w h : Nat) : Grid :=
  List.replicate h (List.replicate w vocab)

/-- Canonical iteration order of a candidate set. -/
def cellList (c : Finset String) : List String := tileOrder.filter (fun n => n ∈ c)

/-- `next(iter(cell))` on a (singleton) candidate set. -/
def cellFirst (c : Finset String) : String := (cellList c).headD ""

/-- Shannon entropy of a candidate cell (`entropy` closure in the source):
0 for collapsed cells, otherwise the negated sum of `p * log p` over the
strictly positive normalized weights. -/
def entropy (env : Env S) (ws : List (String × ℚ)) (c : Finset String) : ℚ :=
  if c.card ≤ 1 then 0
  else
    let weights := (cellList c).map (weightOf ws)
    let total := weights.sum
    Neg.neg (((weights.filter (fun w => decide (0 < w))).map
        (fun w => (w / total) * env.qlog (w / total))).sum)

/-- The `allowed` union computed for a popped cell: union of
`allowed_neighbors` over every tile still in the candidate set. -/
def allowedOf (n : String) : Finset String :=
  ((lookupTile n).map (fun t => t.allowed_neighbors.toFinset)).getD ∅

/-- Union of `allowedOf` over a candidate set. -/
def allowedUnion (c : Finset String) : Finset String := c.biUnion allowedOf

/-- Result of processing the neighbor list of one popped cell. -/
structure StepResult where
  grid : Grid
  stack : List (Nat × Nat)
  trace : List Grid
  updates : Nat
deriving DecidableEq

/-- Neighbor loop of the propagation step: for each neighbor in order,
intersect its candidate set with `allowed`; replace the set and push the
neighbor exactly when the intersection strictly shrinks it and is
non-empty.  `trace` records the grid after each replacement. -/
def stepNeighbors (allowed : Finset String) : Grid → List (Nat × Nat) → List (Nat × Nat) → StepResult
  | g, stack, [] => ⟨g, stack, [], 0⟩
  | g, stack, (nx, ny) :: rest =>
    let before := cellAt g nx ny
    let after := before ∩ allowed
    if after ≠ before ∧ after.Nonempty then
      let g1 := setCell g nx ny after
      let r := stepNeighbors allowed g1 ((nx, ny) :: stack) rest
      ⟨r.grid, r.stack, g1 :: r.trace, r.updates + 1⟩
    else stepNeighbors allowed g stack rest

/-- Result of a full propagation phase. -/
structure PropResult where
  grid : Grid
  trace : List Grid
  updates : Nat
  completed : Bool
deriving DecidableEq

/-- Fueled propagation loop (`while stack:` in the source).  The fuel is
always chosen large enough; completion within the supplied fuel is proved
below. -/
def propagateAux (w h : Nat) : Nat → Grid → List (Nat × Nat) → PropResult
  | _, g, [] => ⟨g, [], 0, true⟩
  | 0, g, _ :: _ => ⟨g, [], 0, false⟩
  | fuel + 1, g, (cx, cy) :: rest =>
    let allowed := allowedUnion (cellAt g cx cy)
    let st := stepNeighbors allowed g rest (neighborsOf cx cy w h)
    let r := propagateAux w h fuel st.grid st.stack
    ⟨r.grid, st.trace ++ r.trace, st.updates + r.updates, r.completed⟩

/-- Total number of candidate tiles over the whole grid (the termination
measure of the propagation loop). -/
def totalCard (g : Grid) : Nat :=
  (g.map (fun row => (row.map Finset.card).sum)).sum

/-- Result of the solver main loop. -/
structure SolveResult (S : Type) where
  grid : Grid
  state : S
  collapses : Nat
  updates : Nat
  trace : List Grid
  completed : Bool

/-- List of uncollapsed cells with their entropies, in the scan order of
the source (`for y ...: for x ...: if len > 1: append (x, y, entropy)`). -/
def collectCandidates (env : Env S) (ws : List (String × ℚ)) (g : Grid) (w h : Nat) :
    List (Nat × Nat × ℚ) :=
  (List.range h).flatMap (fun y =>
    ((List.range w).filter (fun x => 1 < (cellAt g x y).card)).map
      (fun x => (x, y, entropy env ws (cellAt g x y))))

/-- Minimum of a list of rationals (`min(...)` on a non-empty list). -/
def minQ : List ℚ → ℚ
  | [] => 0
  | q :: qs => qs.foldl min q

/-- Lowest-entropy cell selection: collect all candidates tied at the
minimum entropy and draw one uniformly (`rng.choice(low_entropy)`). -/
def pickCell (env : Env S) (cands : List (Nat × Nat × ℚ)) (s : S) : (Nat × Nat) × S :=
  let m := minQ (cands.map (fun c => c.2.2))
  let low := cands.filter (fun c => c.2.2 = m)
  let p := env.choose low.length s
  let c := low.getD (p.1 % low.length) (0, 0, 0)
  ((c.1, c.2.1), p.2)

/-- Fueled main loop of `wave_function_collapse` (`while True:` in the
source).  Each iteration: collect uncollapsed cells, break if none,
choose the lowest-entropy cell, collapse it by weighted choice, then
propagate constraints.  `trace` records the grid after every mutation. -/
def solveLoop (env : Env S) (w h : Nat) (ws : List (String × ℚ)) :
    Nat → Grid → S → SolveResult S
  | 0, g, s => ⟨g, s, 0, 0, [], false⟩
  | fuel + 1, g, s =>
    let cands := collectCandidates env ws g w h
    if cands.isEmpty then ⟨g, s, 0, 0, [], true⟩
    else
      let pc := pickCell env cands s
      let x := pc.1.1
      let y := pc.1.2
      let options := cellAt g x y
      let items := (cellList options).map (fun n => (n, weightOf ws n))
      let wc := weighted_choice env items pc.2
      let g1 := setCell g x y {wc.1}
      let pr := propagateAux w h (totalCard g1 + 2) g1 [(x, y)]
      let rest := solveLoop env w h ws fuel pr.grid wc.2
      ⟨rest.grid, rest.state, rest.collapses + 1, pr.updates + rest.updates,
        g1 :: (pr.trace ++ rest.trace), rest.completed⟩

/-- `wave_function_collapse` with full instrumentation: computes the
empirical weights, then runs the main loop with fuel `w * h + 1` (proved
sufficient below). -/
def wfcFull (env : Env S) (w h : Nat) (s : S) : SolveResult S :=
  let tw := initial_tile_weights env s
  solveLoop env w h tw.1 (w * h + 1) (initGrid w h) tw.2

/-- `wave_function_collapse` from the source: the solved grid of tile
names (`next(iter(cell))` per cell) and the advanced rng state. -/
def wave_function_collapse (env : Env S) (w h : Nat) (s : S) :
    List (List String) × S :=
  let r := wfcFull env w h s
  (r.grid.map (fun row => row.map cellFirst), r.state)

/-- `_temperature_at` from the source. -/
def temperature_at (lat_norm elevation : ℚ) : ℚ :=
  (1 - |lat_norm|) * max 0 (1 - elevation / 8000)

/-- `_biome` decision table from the source, first match wins. -/
def biome (temperature moisture elevation : ℚ) : String :=
  if 3500 < elevation ∨ temperature < 15/100 then "alpine"
  else if temperature < 3/10 ∧ moisture < 35/100 then "tundra"
  else if temperature < 4/10 ∧ 35/100 ≤ moisture then "taiga"
  else if 65/100 < temperature ∧ moisture < 35/100 then "desert"
  else if 65/100 < temperature ∧ 35/100 ≤ moisture then "rainforest"
  else if 1/2 ≤ moisture then "forest"
  else "grassland"

/-- The closed interval of integers `[-r, r]` as a list, ascending
(`range(-radius, radius + 1)`). -/
def intRange (r : Nat) : List ℤ :=
  (List.range (2 * r + 1)).map (fun (i : Nat) => (i : ℤ) - (r : ℤ))

/-- The scan order of `_distance_to_ocean`: the full square of radius `r`
for `r = 1..10`, dx-major then dy within each square. -/
def scanOffsets : List (ℤ × ℤ) :=
  ((List.range 10).map Nat.succ).flatMap (fun r =>
    (intRange r).flatMap (fun dx => (intRange r).map (fun dy => (dx, dy))))

/-- The in-bounds-and-ocean test of the scan body
(`0 <= nx < len(tiles[0]) and 0 <= ny < len(tiles) and tiles[ny][nx] == "ocean"`). -/
def isOceanOffset (tiles : List (List String)) (x y : Nat) (d : ℤ × ℤ) : Bool :=
  let nx := (x : ℤ) + d.1
  let ny := (y : ℤ) + d.2
  decide (0 ≤ nx) && decide (nx < ((tiles.headD []).length : ℤ)) &&
  decide (0 ≤ ny) && decide (ny < (tiles.length : ℤ)) &&
  ((tiles.getD ny.toNat []).getD nx.toNat "" == "ocean")

/-- `_distance_to_ocean` from the source: 0 on an ocean cell, otherwise
`math.hypot` of the first offset matched in scan order, or 10 when no
offset matches. -/
def distance_to_ocean (env : Env S) (tiles : List (List String)) (x y : Nat) : ℚ :=
  if (tiles.getD y []).getD x "" == "ocean" then 0
  else
    match scanOffsets.find? (isOceanOffset tiles x y) with
    | some d => env.qhypot d.1 d.2
    | none => 10

/-- `_moisture_at` from the source: one uniform draw blended with the
ocean-distance bonus, capped at 1. -/
def moisture_at (env : Env S) (distanceToOcean : ℚ) (s : S) : ℚ × S :=
  let b := env.uniform 0 1 s
  let ocean_bonus := max 0 (1 - distanceToOcean / 12)
  (min 1 (6/10 * b.1 + 4/10 * ocean_bonus), b.2)

/-- One cell of `generate_heightfield`: look the tile up (KeyError gives
`none`), draw a planet sample and clamp it into the tile's range. -/
def hfCell (env : Env S) (name : String) (s : S) : Option (ℚ × S) :=
  match lookupTile name with
  | none => none
  | some t =>
    let p := planet_sample env PLANET_PROFILES s
    some (max (min p.1 t.height_range.2) t.height_range.1, p.2)

/-- One row of `generate_heightfield`, iterating the given x-indices.
Reading `tiles[y][x]` out of range models the Python IndexError as
`none`. -/
def hfRow (env : Env S) (tiles : List (List String)) (y : Nat) :
    List Nat → S → Option (List ℚ × S)
  | [], s => some ([], s)
  | x :: xs, s =>
    match (tiles.getD y []).get? x with
    | none => none
    | some name =>
      match hfCell env name s with
      | none => none
      | some q =>
        match hfRow env tiles y xs q.2 with
        | none => none
        | some r => some (q.1 :: r.1, r.2)

/-- The row loop of `generate_heightfield`. -/
def hfRows (env : Env S) (tiles : List (List String)) (w : Nat) :
    List Nat → S → Option (List (List ℚ) × S)
  | [], s => some ([], s)
  | y :: ys, s =>
    match hfRow env tiles y (List.range w) s with
    | none => none
    | some r =>
      match hfRows env tiles w ys r.2 with
      | none => none
      | some rr => some (r.1 :: rr.1, rr.2)

/-- `generate_heightfield` from the source.  `len(tiles[0])` on an empty
grid raises IndexError, modelled as `none`. -/
def generate_heightfield (env : Env S) (tiles : List (List String)) (s : S) :
    Option (List (List ℚ) × S) :=
  match tiles with
  | [] => none
  | r0 :: _ => hfRows env tiles r0.length (List.range tiles.length) s

/-- One cell of `assign_biomes`: temperature, ocean distance, moisture
draw, then the decision table. -/
def biomeCell (env : Env S) (tiles : List (List String)) (lat_norm : ℚ)
    (x y : Nat) (elevation : ℚ) (s : S) : String × S :=
  let temp := temperature_at lat_norm elevation
  let d := distance_to_ocean env tiles x y
  let m := moisture_at env d s
  (biome temp m.1 elevation, m.2)

/-- One row of `assign_biomes`, iterating the given x-indices. -/
def abRow (env : Env S) (tiles : List (List String)) (heights : List (List ℚ))
    (lat_norm : ℚ) (y : Nat) : List Nat → S → Option (List String × S)
  | [], s => some ([], s)
  | x :: xs, s =>
    match (heights.getD y []).get? x with
    | none => none
    | some elevation =>
      let b := biomeCell env tiles lat_norm x y elevation s
      match abRow env tiles heights lat_norm y xs b.2 with
      | none => none
      | some r => some (b.1 :: r.1, r.2)

/-- The row loop of `assign_biomes`. -/
def abRows (env : Env S) (tiles : List (List String)) (heights : List (List ℚ))
    (w hgt : Nat) : List Nat → S → Option (List (List String) × S)
  | [], s => some ([], s)
  | y :: ys, s =>
    let lat_norm := ((y : ℚ) / ((hgt : ℚ) - 1)) * 2 - 1
    match abRow env tiles heights lat_norm y (List.range w) s with
    | none => none
    | some r =>
      match abRows env tiles heights w hgt ys r.2 with
      | none => none
      | some rr => some (r.1 :: rr.1, rr.2)

/-- `assign_biomes` from the source.  `len(tiles[0])` raises on an empty
grid, and `y / (height - 1)` raises ZeroDivisionError when the grid has
exactly one row; both are modelled as `none`. -/
def assign_biomes (env : Env S) (tiles : List (List String))
    (heights : List (List ℚ)) (s : S) : Option (List (List String) × S) :=
  match tiles with
  | [] => none
  | r0 :: _ =>
    if tiles.length = 1 then none
    else abRows env tiles heights r0.length tiles.length (List.range tiles.length) s

/-- `export_obj` from the source, as the mesh content it writes: one
vertex `(x*scale, y*scale, z)` per cell in row-major order and two
1-based triangle faces per grid quad.  `len(heights[0])` raises on an
empty heightfield, modelled as `none`. -/
def export_obj (heights : List (List ℚ)) (scale : ℚ) :
    Option (List (ℚ × ℚ × ℚ) × List (Nat × Nat × Nat)) :=
  match heights with
  | [] => none
  | r0 :: _ =>
    let hgt := heights.length
    let w := r0.length
    let verts := (List.range hgt).flatMap (fun (y : Nat) =>
      (List.range w).map (fun (x : Nat) =>
        ((x : ℚ) * scale, (y : ℚ) * scale, (heights.getD y []).getD x 0)))
    let faces := (List.range (hgt - 1)).flatMap (fun y =>
      (List.range (w - 1)).flatMap (fun x =>
        let v1 := y * w + x + 1
        [(v1, v1 + 1, v1 + w + 1), (v1, v1 + w + 1, v1 + w)]))
    some (verts, faces)

/-- The artifacts of one full run of `main`. -/
structure RunOut where
  tiles : List (List String)
  heights : List (List ℚ)
  biomes : List (List String)
  mesh : List (ℚ × ℚ × ℚ) × List (Nat × Nat × Nat)
deriving DecidableEq

/-- The full pipeline of `main`: seed the rng, solve, synthesize heights,
classify biomes, export the mesh.  A `none` models an uncaught Python
exception aborting the run. -/
def runFull (env : Env S) (seed w h : ℤ) (scale : ℚ) : Option RunOut :=
  let s0 := env.seedInit seed
  let tl := wave_function_collapse env w.toNat h.toNat s0
  match generate_heightfield env tl.1 tl.2 with
  | none => none
  | some hp =>
    match assign_biomes env tl.1 hp.1 hp.2 with
    | none => none
    | some bp =>
      match export_obj hp.1 scale with
      | none => none
      | some mesh => some ⟨tl.1, hp.1, bp.1, mesh⟩

/-- A concrete trivial oracle over the unit state, for witnesses:
`uniform` returns its lower bound, `gauss` returns 0, `choose` returns
index 0, `qlog` and `qhypot` return 0. -/
def trivEnv : Env Unit :=
  ⟨fun a _ s => (a, s), fun _ _ s => (0, s), fun _ s => (0, s),
   fun _ => 0, fun _ _ => 0, fun _ => ()⟩

/-- Pointwise shrinking of candidate sets between two grid snapshots. -/
def cellsShrink (g g' : Grid) : Prop := ∀ x y, cellAt g' x y ⊆ cellAt g x y

/-- The set of in-bounds positions whose candidate set is not yet a
singleton (the termination measure of the solver main loop). -/
def uncollapsed (g : Grid) (w h : Nat) : Finset (Nat × Nat) :=
  (Finset.range w ×ˢ Finset.range h).filter
    (fun p => 1 < (cellAt g p.1 p.2).card)

/-- Concrete 5x5 tile grid demonstrating that the expanding-box scan of
`_distance_to_ocean` does not return the minimal Euclidean distance:
seen from `(2, 2)`, the ocean at `(0, 0)` (offset `(-2, -2)`, squared
length 8) is found before the ocean at `(2, 4)` (offset `(0, 2)`,
squared length 4). -/
def oceanDemo : List (List String) :=
  [["ocean", "lowland", "lowland", "lowland", "lowland"],
   ["lowland", "lowland", "lowland", "lowland", "lowland"],
   ["lowland", "lowland", "lowland", "lowland", "lowland"],
   ["lowland", "lowland", "lowland", "lowland", "lowland"],
   ["lowland", "lowland", "ocean", "lowland", "lowland"]]

/-- Every in-bounds cell has a non-empty candidate set. -/
def NonemptyCells (g : Grid) (w h : Nat) : Prop :=
  ∀ x y, x < w → y < h → (cellAt g x y).Nonempty

/-- Every cell's candidate set is inside the tile vocabulary. -/
def SubVocab (g : Grid) : Prop := ∀ x y, cellAt g x y ⊆ vocab

/-- `tr` is a chronological list of grid snapshots starting from `g`,
each step only shrinking candidate sets, ending in `gEnd`. -/
def TraceOK (g : Grid) (tr : List Grid) (gEnd : Grid) : Prop :=
  List.Chain' cellsShrink (g :: tr) ∧ (g :: tr).getLast? = some gEnd

/-! ## Basic lemmas about the weighted choice -/

lemma weightedLoop_mem {pick : ℚ} {items : List (String × ℚ)} {n : String} :
    ∀ {cur : ℚ}, weightedLoop pick cur items = some n → n ∈ items.map Prod.fst := by
  induction items with
  | nil => intro cur h; simp [weightedLoop] at h
  | cons p rest ih =>
    intro cur h
    obtain ⟨pn, pw⟩ := p
    rw [weightedLoop] at h
    by_cases hc : pick ≤ cur + pw
    · rw [if_pos hc] at h
      simp only [Option.some.injEq] at h
      simp [h]
    · rw [if_neg hc] at h
      simpa using Or.inr (ih h)

lemma weighted_choice_mem (env : Env S) (items : List (String × ℚ)) (s : S)
    (hne : items ≠ []) : (weighted_choice env items s).1 ∈ items.map Prod.fst := by
  rw [weighted_choice]
  cases hw : weightedLoop (env.uniform 0 ((items.map Prod.snd).sum) s).1 0 items with
  | some n => simpa using weightedLoop_mem hw
  | none =>
    rw [List.getLast?_eq_getLast items hne]
    simpa using List.mem_map_of_mem Prod.fst (List.getLast_mem hne)

/-! ## Basic lemmas about grid cells -/

lemma cellAt_eq_getElem? (g : Grid) (x y : Nat) :
    cellAt g x y = ((g[y]?.getD [])[x]?).getD ∅ := by
  rw [cellAt, List.getD_eq_getElem?_getD g y [], List.getD_eq_getElem?_getD]

lemma cellAt_nonempty_bounds {g : Grid} {x y : Nat} (h : (cellAt g x y).Nonempty) :
    y < g.length ∧ x < (g[y]?.getD []).length := by
  rw [cellAt_eq_getElem?] at h
  rcases h with ⟨a, ha⟩
  by_cases hy : y < g.length
  · refine ⟨hy, ?_⟩
    by_contra hx
    push_neg at hx
    rw [List.getElem?_eq_none (by simpa using hx)] at ha
    simp at ha
  · rw [show g[y]? = none from List.getElem?_eq_none (by omega)] at ha
    simp at ha

lemma cellAt_setCell_self {g : Grid} {x y : Nat} (v : Finset String)
    (hy : y < g.length) (hx : x < (g[y]?.getD []).length) :
    cellAt (setCell g x y v) x y = v := by
  rw [cellAt_eq_getElem?, setCell, List.getElem?_set_self (by simpa using hy),
    Option.getD_some, List.getElem?_set_self]
  · rfl
  · rwa [List.getD_eq_getElem?_getD]

lemma cellAt_setCell_ne {g : Grid} {x y x' y' : Nat} (v : Finset String)
    (h : x' ≠ x ∨ y' ≠ y) :
    cellAt (setCell g x y v) x' y' = cellAt g x' y' := by
  rcases h with hx | hy
  · rw [cellAt_eq_getElem?, cellAt_eq_getElem?, setCell]
    by_cases hyy : y' = y
    · subst hyy
      by_cases hylt : y' < g.length
      · rw [List.getElem?_set_self (by simpa using hylt), Option.getD_some,
          List.getElem?_set_ne (Ne.symm hx)]
        congr 2
        rw [List.getD_eq_getElem?_getD]
      · rw [List.set_eq_of_length_le (by omega)]
    · rw [List.getElem?_set_ne (Ne.symm hyy)]
  · rw [cellAt_eq_getElem?, cellAt_eq_getElem?, setCell,
      List.getElem?_set_ne (Ne.symm hy)]

lemma cellAt_setCell_cases (g : Grid) (x y x' y' : Nat) (v : Finset String) :
    cellAt (setCell g x y v) x' y' = cellAt g x' y' ∨
      (x' = x ∧ y' = y ∧ cellAt (setCell g x y v) x' y' = v) := by
  by_cases hx : x' = x
  · by_cases hy : y' = y
    · subst hx; subst hy
      by_cases hb : y' < g.length ∧ x' < (g[y']?.getD []).length
      · exact Or.inr ⟨rfl, rfl, cellAt_setCell_self v hb.1 hb.2⟩
      · left
        rw [cellAt_eq_getElem?, cellAt_eq_getElem?, setCell]
        by_cases hylt : y' < g.length
        · have hxge : (g[y']?.getD []).length ≤ x' := by
            rcases not_and_or.mp hb with h | h
            · exact absurd hylt h
            · omega
          rw [List.getElem?_set_self (by simpa using hylt), Option.getD_some]
          have hrow : (g.getD y' []).length ≤ x' := by
            rwa [List.getD_eq_getElem?_getD]
          rw [show ((g.getD y' []).set x' v)[x']? = none from
              List.getElem?_eq_none (by simpa using hrow),
            show (g[y']?.getD [])[x']? = none from List.getElem?_eq_none hxge]
        · rw [List.set_eq_of_length_le (by omega)]
    · exact Or.inl (cellAt_setCell_ne v (Or.inr hy))
  · exact Or.inl (cellAt_setCell_ne v (Or.inl hx))

/-! ## Shrink traces -/

lemma cellsShrink_refl (g : Grid) : cellsShrink g g := fun _ _ => le_refl _

lemma cellsShrink_trans {a b c : Grid} (h1 : cellsShrink a b) (h2 : cellsShrink b c) :
    cellsShrink a c := fun x y => (h2 x y).trans (h1 x y)

lemma traceOK_nil (g : Grid) : TraceOK g [] g := by
  constructor
  · simp [List.chain'_singleton]
  · simp

lemma traceOK_cons {g g1 gEnd : Grid} {tr : List Grid}
    (h1 : cellsShrink g g1) (h2 : TraceOK g1 tr gEnd) :
    TraceOK g (g1 :: tr) gEnd := by
  obtain ⟨hc, hl⟩ := h2
  exact ⟨List.chain'_cons.mpr ⟨h1, hc⟩, by rwa [List.getLast?_cons_cons]⟩

lemma traceOK_append {g m gEnd : Grid} {tr tr' : List Grid} :
    TraceOK g tr m → TraceOK m tr' gEnd → TraceOK g (tr ++ tr') gEnd := by
  induction tr generalizing g with
  | nil =>
    intro h1 h2
    obtain ⟨_, hl⟩ := h1
    simp only [List.getLast?_singleton, Option.some.injEq] at hl
    subst hl
    simpa using h2
  | cons a tr ih =>
    intro h1 h2
    obtain ⟨hc, hl⟩ := h1
    rw [List.chain'_cons] at hc
    rw [List.getLast?_cons_cons] at hl
    exact traceOK_cons hc.1 (ih ⟨hc.2, hl⟩ h2)

lemma traceOK_shrink {g gEnd : Grid} {tr : List Grid} (h : TraceOK g tr gEnd) :
    cellsShrink g gEnd := by
  induction tr generalizing g with
  | nil =>
    obtain ⟨_, hl⟩ := h
    simp only [List.getLast?_singleton, Option.some.injEq] at hl
    subst hl
    exact cellsShrink_refl g
  | cons a tr ih =>
    obtain ⟨hc, hl⟩ := h
    rw [List.chain'_cons] at hc
    rw [List.getLast?_cons_cons] at hl
    exact cellsShrink_trans hc.1 (ih ⟨hc.2, hl⟩)

lemma traceOK_end_mem {g gEnd : Grid} {tr : List Grid} (h : TraceOK g tr gEnd) :
    gEnd ∈ g :: tr := by
  induction tr generalizing g with
  | nil =>
    obtain ⟨_, hl⟩ := h
    simp only [List.getLast?_singleton, Option.some.injEq] at hl
    simp [hl]
  | cons a tr ih =>
    obtain ⟨hc, hl⟩ := h
    rw [List.chain'_cons] at hc
    rw [List.getLast?_cons_cons] at hl
    rcases ih ⟨hc.2, hl⟩ with hm
    exact List.mem_cons_of_mem g hm

/-! ## The total candidate count and the propagation measure -/

lemma map_sum_set {α : Type} (f : α → Nat) :
    ∀ (l : List α) (i : Nat) (a : α), i < l.length →
      ((l.set i a).map f).sum + f (l.getD i a) = (l.map f).sum + f a := by
  intro l
  induction l with
  | nil => intro i a h; simp at h
  | cons b bs ih =>
    intro i a h
    cases i with
    | zero => simp [List.set]; omega
    | succ n =>
      have hn : n < bs.length := by simpa using h
      have := ih n a hn
      simp only [List.set, List.map_cons, List.sum_cons, List.getD_cons_succ]
      omega

lemma totalCard_setCell {g : Grid} {x y : Nat} (v : Finset String)
    (hy : y < g.length) (hx : x < (g[y]?.getD []).length) :
    totalCard (setCell g x y v) + (cellAt g x y).card = totalCard g + v.card := by
  have hrow : g.getD y [] = g[y]?.getD [] := List.getD_eq_getElem?_getD g y []
  have h1 := map_sum_set (fun row => (row.map Finset.card).sum) g y
      ((g.getD y []).set x v) hy
  have h2 := map_sum_set Finset.card (g.getD y []) x v (by rwa [hrow])
  rw [totalCard, totalCard, setCell]
  have hgy : g.getD y ((g.getD y []).set x v) = g.getD y [] := by
    rw [List.getD_eq_getElem g ((g.getD y []).set x v) hy, List.getD_eq_getElem g [] hy]
  rw [hgy] at h1
  simp only [] at h1
  have hcell : cellAt g x y = (g.getD y []).getD x v := by
    rw [cellAt]
    rw [List.getD_eq_getElem (g.getD y []) ∅ (by rwa [hrow]),
      List.getD_eq_getElem (g.getD y []) v (by rwa [hrow])]
  rw [hcell]
  omega

lemma stepNeighbors_measure (allowed : Finset String) :
    ∀ (ns : List (Nat × Nat)) (g : Grid) (stack : List (Nat × Nat)),
      totalCard (stepNeighbors allowed g stack ns).grid +
        (stepNeighbors allowed g stack ns).stack.length ≤ totalCard g + stack.length := by
  intro ns
  induction ns with
  | nil => intro g stack; simp [stepNeighbors]
  | cons p rest ih =>
    intro g stack
    obtain ⟨nx, ny⟩ := p
    rw [stepNeighbors]
    by_cases hc : cellAt g nx ny ∩ allowed ≠ cellAt g nx ny ∧ (cellAt g nx ny ∩ allowed).Nonempty
    · rw [if_pos hc]
      simp only []
      have hsub : cellAt g nx ny ∩ allowed ⊆ cellAt g nx ny := Finset.inter_subset_left
      have hss : cellAt g nx ny ∩ allowed ⊂ cellAt g nx ny := ssubset_of_subset_of_ne hsub hc.1
      have hlt : (cellAt g nx ny ∩ allowed).card < (cellAt g nx ny).card :=
        Finset.card_lt_card hss
      have hne : (cellAt g nx ny).Nonempty := hc.2.mono hsub
      obtain ⟨hy, hx⟩ := cellAt_nonempty_bounds hne
      have htc := totalCard_setCell (g := g) (x := nx) (y := ny)
        (cellAt g nx ny ∩ allowed) hy hx
      have := ih (setCell g nx ny (cellAt g nx ny ∩ allowed)) ((nx, ny) :: stack)
      simp only [List.length_cons] at this
      omega
    · rw [if_neg hc]
      exact ih g stack

lemma stepNeighbors_traceOK (allowed : Finset String) (w h : Nat) :
    ∀ (ns : List (Nat × Nat)) (g : Grid) (stack : List (Nat × Nat)),
      TraceOK g (stepNeighbors allowed g stack ns).trace (stepNeighbors allowed g stack ns).grid ∧
      (NonemptyCells g w h →
        ∀ g' ∈ g :: (stepNeighbors allowed g stack ns).trace, NonemptyCells g' w h) := by
  intro ns
  induction ns with
  | nil =>
    intro g stack
    refine ⟨by simpa [stepNeighbors] using traceOK_nil g, ?_⟩
    intro hne g' hg'
    simp [stepNeighbors] at hg'
    subst hg'
    exact hne
  | cons p rest ih =>
    intro g stack
    obtain ⟨nx, ny⟩ := p
    rw [stepNeighbors]
    by_cases hc : cellAt g nx ny ∩ allowed ≠ cellAt g nx ny ∧ (cellAt g nx ny ∩ allowed).Nonempty
    · rw [if_pos hc]
      simp only []
      set g1 := setCell g nx ny (cellAt g nx ny ∩ allowed) with hg1
      have hshrink : cellsShrink g g1 := by
        intro x' y'
        rcases cellAt_setCell_cases g nx ny x' y' (cellAt g nx ny ∩ allowed) with hcase | hcase
        · rw [← hg1] at hcase
          rw [hcase]
        · rw [← hg1] at hcase
          rw [hcase.2.2, hcase.1, hcase.2.1]
          exact Finset.inter_subset_left
      have hnonempty : NonemptyCells g w h → NonemptyCells g1 w h := by
        intro hne x' y' hx' hy'
        rcases cellAt_setCell_cases g nx ny x' y' (cellAt g nx ny ∩ allowed) with hcase | hcase
        · rw [← hg1] at hcase
          rw [hcase]
          exact hne x' y' hx' hy'
        · rw [← hg1] at hcase
          rw [hcase.2.2]
          exact hc.2
      obtain ⟨iht, ihn⟩ := ih g1 ((nx, ny) :: stack)
      constructor
      · exact traceOK_cons hshrink iht
      · intro hne g' hg'
        rcases List.mem_cons.mp hg' with hg' | hg'
        · subst hg'
          exact hne
        · exact ihn (hnonempty hne) g' hg'
    · rw [if_neg hc]
      exact ih g stack

lemma propagateAux_traceOK (w h : Nat) :
    ∀ (fuel : Nat) (stack : List (Nat × Nat)) (g : Grid),
      TraceOK g (propagateAux w h fuel g stack).trace (propagateAux w h fuel g stack).grid ∧
      (NonemptyCells g w h →
        ∀ g' ∈ g :: (propagateAux w h fuel g stack).trace, NonemptyCells g' w h) := by
  intro fuel
  induction fuel with
  | zero =>
    intro stack g
    cases stack with
    | nil =>
      refine ⟨by simpa [propagateAux] using traceOK_nil g, ?_⟩
      intro hne g' hg'
      simp [propagateAux] at hg'
      subst hg'
      exact hne
    | cons p rest =>
      refine ⟨by simpa [propagateAux] using traceOK_nil g, ?_⟩
      intro hne g' hg'
      simp [propagateAux] at hg'
      subst hg'
      exact hne
  | succ fuel ih =>
    intro stack g
    cases stack with
    | nil =>
      refine ⟨by simpa [propagateAux] using traceOK_nil g, ?_⟩
      intro hne g' hg'
      simp [propagateAux] at hg'
      subst hg'
      exact hne
    | cons p rest =>
      obtain ⟨cx, cy⟩ := p
      rw [propagateAux]
      simp only []
      set allowed := allowedUnion (cellAt g cx cy) with hal
      obtain ⟨st1, st2⟩ := stepNeighbors_traceOK allowed w h (neighborsOf cx cy w h) g rest
      obtain ⟨ih1, ih2⟩ := ih (stepNeighbors allowed g rest (neighborsOf cx cy w h)).stack
        (stepNeighbors allowed g rest (neighborsOf cx cy w h)).grid
      constructor
      · exact traceOK_append st1 ih1
      · intro hne g' hg'
        rcases List.mem_cons.mp hg' with hg' | hg'
        · subst hg'
          exact hne
        · rcases List.mem_append.mp hg' with hg' | hg'
          · exact st2 hne g' (List.mem_cons_of_mem g hg')
          · have hstep_ne : NonemptyCells
                (stepNeighbors allowed g rest (neighborsOf cx cy w h)).grid w h := by
              have := st2 hne _ (traceOK_end_mem st1)
              exact this
            exact ih2 hstep_ne g' (List.mem_cons_of_mem _ hg')

lemma propagateAux_completed (w h : Nat) :
    ∀ (fuel : Nat) (stack : List (Nat × Nat)) (g : Grid),
      totalCard g + stack.length < fuel →
      (propagateAux w h fuel g stack).completed = true := by
  intro fuel
  induction fuel with
  | zero => intro stack g hlt; omega
  | succ fuel ih =>
    intro stack g hlt
    cases stack with
    | nil => simp [propagateAux]
    | cons p rest =>
      obtain ⟨cx, cy⟩ := p
      rw [propagateAux]
      simp only []
      apply ih
      have := stepNeighbors_measure (allowedUnion (cellAt g cx cy))
        (neighborsOf cx cy w h) g rest
      simp only [List.length_cons] at hlt
      omega

/-! ## Lemmas about cell selection and collapse -/

lemma subVocab_of_shrink {g g' : Grid} (hs : SubVocab g) (h : cellsShrink g g') :
    SubVocab g' := fun x y => (h x y).trans (hs x y)

lemma minQ_mem : ∀ (q : ℚ) (qs : List ℚ), minQ (q :: qs) ∈ q :: qs := by
  intro q qs
  induction qs generalizing q with
  | nil => simp [minQ]
  | cons a qs ih =>
    have hstep : minQ (q :: a :: qs) = minQ (min q a :: qs) := by
      simp [minQ]
    rw [hstep]
    rcases List.mem_cons.mp (ih (min q a)) with he | he
    · rcases min_choice q a with hq | hq
      · rw [he, hq]
        exact List.mem_cons_self q (a :: qs)
      · rw [he, hq]
        exact List.mem_cons_of_mem q (List.mem_cons_self a qs)
    · exact List.mem_cons_of_mem q (List.mem_cons_of_mem a he)

lemma pickCell_mem (env : Env S) (cands : List (Nat × Nat × ℚ)) (s : S)
    (hne : cands ≠ []) :
    ∃ c ∈ cands, (pickCell env cands s).1 = (c.1, c.2.1) := by
  have hml : ∃ c ∈ cands, c.2.2 = minQ (cands.map (fun c => c.2.2)) := by
    cases cands with
    | nil => exact absurd rfl hne
    | cons c0 rest =>
      have := minQ_mem (c0.2.2) (rest.map (fun c => c.2.2))
      rw [show c0.2.2 :: rest.map (fun c => c.2.2) = (c0 :: rest).map (fun c => c.2.2) by simp] at this
      rcases List.mem_map.mp this with ⟨c, hc, he⟩
      exact ⟨c, hc, he⟩
  obtain ⟨c, hc, hce⟩ := hml
  have hlow : c ∈ cands.filter (fun c => decide (c.2.2 = minQ (cands.map (fun c => c.2.2)))) := by
    rw [List.mem_filter]
    exact ⟨hc, by simpa using hce⟩
  have hlne : cands.filter (fun c => decide (c.2.2 = minQ (cands.map (fun c => c.2.2)))) ≠ [] :=
    List.ne_nil_of_mem hlow
  rw [pickCell]
  simp only []
  set low := cands.filter (fun c => decide (c.2.2 = minQ (cands.map (fun c => c.2.2)))) with hlowdef
  have hpos : 0 < low.length := List.length_pos.mpr hlne
  have hidx : (env.choose low.length s).1 % low.length < low.length :=
    Nat.mod_lt _ hpos
  have hget : low.getD ((env.choose low.length s).1 % low.length) (0, 0, 0) ∈ low := by
    rw [List.getD_eq_getElem low (0, 0, 0) hidx]
    exact List.getElem_mem hidx
  exact ⟨_, List.mem_of_mem_filter hget, rfl⟩

lemma collectCandidates_mem {env : Env S} {ws : List (String × ℚ)} {g : Grid}
    {w h : Nat} {c : Nat × Nat × ℚ} (hc : c ∈ collectCandidates env ws g w h) :
    c.1 < w ∧ c.2.1 < h ∧ 1 < (cellAt g c.1 c.2.1).card := by
  rw [collectCandidates] at hc
  rcases List.mem_flatMap.mp hc with ⟨y, hy, hrow⟩
  rcases List.mem_map.mp hrow with ⟨x, hx, he⟩
  rw [List.mem_filter] at hx
  subst he
  refine ⟨List.mem_range.mp hx.1, List.mem_range.mp hy, by simpa using hx.2⟩

lemma cellList_ne_nil {options : Finset String} (hsub : options ⊆ vocab)
    (hne : options.Nonempty) : cellList options ≠ [] := by
  obtain ⟨n, hn⟩ := hne
  have hv : n ∈ tileOrder := by
    have := hsub hn
    rwa [vocab, List.mem_toFinset] at this
  exact List.ne_nil_of_mem (List.mem_filter.mpr ⟨hv, by simpa using hn⟩)

lemma cellList_subset {options : Finset String} {n : String}
    (h : n ∈ cellList options) : n ∈ options := by
  rw [cellList, List.mem_filter] at h
  simpa using h.2

lemma choice_mem_options (env : Env S) (ws : List (String × ℚ))
    {options : Finset String} (s : S) (hsub : options ⊆ vocab)
    (hne : options.Nonempty) :
    (weighted_choice env ((cellList options).map (fun n => (n, weightOf ws n))) s).1 ∈ options := by
  have hitems : (cellList options).map (fun n => (n, weightOf ws n)) ≠ [] := by
    simpa using cellList_ne_nil hsub hne
  have hmem := weighted_choice_mem env ((cellList options).map (fun n => (n, weightOf ws n))) s hitems
  rw [List.map_map] at hmem
  have hid : (Prod.fst ∘ fun n => (n, weightOf ws n)) = id := by
    funext n
    rfl
  rw [hid, List.map_id] at hmem
  exact cellList_subset hmem

/-! ## The solver main loop: invariants and termination -/

lemma uncollapsed_mono {g g' : Grid} {w h : Nat} (hs : cellsShrink g g') :
    uncollapsed g' w h ⊆ uncollapsed g w h := by
  intro p hp
  rw [uncollapsed, Finset.mem_filter] at hp
  rw [uncollapsed, Finset.mem_filter]
  exact ⟨hp.1, lt_of_lt_of_le hp.2 (Finset.card_le_card (hs p.1 p.2))⟩

lemma uncollapsed_card_le (g : Grid) (w h : Nat) :
    (uncollapsed g w h).card ≤ w * h := by
  calc (uncollapsed g w h).card
      ≤ (Finset.range w ×ˢ Finset.range h).card := Finset.card_filter_le _ _
    _ = w * h := by rw [Finset.card_product, Finset.card_range, Finset.card_range]

lemma pickCell_bounds (env : Env S) (ws : List (String × ℚ)) (g : Grid)
    (w h : Nat) (s : S) (hcne : collectCandidates env ws g w h ≠ []) :
    (pickCell env (collectCandidates env ws g w h) s).1.1 < w ∧
    (pickCell env (collectCandidates env ws g w h) s).1.2 < h ∧
    1 < (cellAt g (pickCell env (collectCandidates env ws g w h) s).1.1
          (pickCell env (collectCandidates env ws g w h) s).1.2).card := by
  obtain ⟨c, hcmem, hceq⟩ := pickCell_mem env _ s hcne
  have h1 := collectCandidates_mem hcmem
  rw [hceq]
  exact ⟨h1.1, h1.2.1, h1.2.2⟩

lemma setCell_singleton_facts {g : Grid} {x y : Nat} {c : String}
    (hc : c ∈ cellAt g x y) :
    cellsShrink g (setCell g x y {c}) ∧ cellAt (setCell g x y {c}) x y = {c} := by
  have hne : (cellAt g x y).Nonempty := ⟨c, hc⟩
  obtain ⟨hy, hx⟩ := cellAt_nonempty_bounds hne
  have hself := cellAt_setCell_self (g := g) {c} hy hx
  refine ⟨?_, hself⟩
  intro a b
  rcases cellAt_setCell_cases g x y a b {c} with hcase | hcase
  · rw [hcase]
  · rw [hcase.2.2, hcase.1, hcase.2.1]
    exact Finset.singleton_subset_iff.mpr hc

lemma nonempty_setCell {g : Grid} {x y w h : Nat} {v : Finset String}
    (hv : v.Nonempty) (hne : NonemptyCells g w h) :
    NonemptyCells (setCell g x y v) w h := by
  intro a b ha hb
  rcases cellAt_setCell_cases g x y a b v with hcase | hcase
  · rw [hcase]
    exact hne a b ha hb
  · rw [hcase.2.2]
    exact hv

lemma uncollapsed_progress {g g2 : Grid} {x y w h : Nat}
    (hx : x < w) (hy : y < h) (hcard : 1 < (cellAt g x y).card)
    (hsh : cellsShrink g g2) (hcell : (cellAt g2 x y).card ≤ 1) :
    (uncollapsed g2 w h).card < (uncollapsed g w h).card := by
  apply Finset.card_lt_card
  rw [Finset.ssubset_def]
  refine ⟨uncollapsed_mono hsh, ?_⟩
  intro hsub
  have hmem : (x, y) ∈ uncollapsed g w h := by
    rw [uncollapsed, Finset.mem_filter, Finset.mem_product]
    exact ⟨⟨Finset.mem_range.mpr hx, Finset.mem_range.mpr hy⟩, hcard⟩
  have := hsub hmem
  rw [uncollapsed, Finset.mem_filter] at this
  simp only [] at this
  omega

lemma solveLoop_inv (env : Env S) (w h : Nat) (ws : List (String × ℚ)) :
    ∀ (fuel : Nat) (g : Grid) (s : S), SubVocab g →
      TraceOK g (solveLoop env w h ws fuel g s).trace (solveLoop env w h ws fuel g s).grid ∧
      (NonemptyCells g w h →
        ∀ g' ∈ g :: (solveLoop env w h ws fuel g s).trace, NonemptyCells g' w h) := by
  intro fuel
  induction fuel with
  | zero =>
    intro g s hsv
    refine ⟨by simpa [solveLoop] using traceOK_nil g, ?_⟩
    intro hne g' hg'
    simp [solveLoop] at hg'
    subst hg'
    exact hne
  | succ fuel ih =>
    intro g s hsv
    rw [solveLoop]
    by_cases hce : (collectCandidates env ws g w h).isEmpty = true
    · rw [if_pos hce]
      refine ⟨by simpa using traceOK_nil g, ?_⟩
      intro hne g' hg'
      simp at hg'
      subst hg'
      exact hne
    · rw [if_neg hce]
      simp only []
      have hcne : collectCandidates env ws g w h ≠ [] := by
        simpa using hce
      obtain ⟨hxw, hyh, hcard⟩ := pickCell_bounds env ws g w h s hcne
      have hopt_ne : (cellAt g (pickCell env (collectCandidates env ws g w h) s).1.1
          (pickCell env (collectCandidates env ws g w h) s).1.2).Nonempty :=
        Finset.card_pos.mp (by omega)
      have hopt_sub := hsv (pickCell env (collectCandidates env ws g w h) s).1.1
        (pickCell env (collectCandidates env ws g w h) s).1.2
      have hchoice := choice_mem_options env ws
        (pickCell env (collectCandidates env ws g w h) s).2 hopt_sub hopt_ne
      obtain ⟨hshrink1, hcell1⟩ := setCell_singleton_facts hchoice
      obtain ⟨prT, prN⟩ := propagateAux_traceOK w h _ _ _
      have hsv1 : SubVocab (setCell g (pickCell env (collectCandidates env ws g w h) s).1.1
          (pickCell env (collectCandidates env ws g w h) s).1.2
          {(weighted_choice env
            ((cellList (cellAt g (pickCell env (collectCandidates env ws g w h) s).1.1
              (pickCell env (collectCandidates env ws g w h) s).1.2)).map
              (fun n => (n, weightOf ws n)))
            (pickCell env (collectCandidates env ws g w h) s).2).1}) :=
        subVocab_of_shrink hsv hshrink1
      have hsvpr := subVocab_of_shrink hsv1 (traceOK_shrink prT)
      obtain ⟨ihT, ihN⟩ := ih _ _ hsvpr
      constructor
      · exact traceOK_cons hshrink1 (traceOK_append prT ihT)
      · intro hne g' hg'
        have hne1 := nonempty_setCell
          (x := (pickCell env (collectCandidates env ws g w h) s).1.1)
          (y := (pickCell env (collectCandidates env ws g w h) s).1.2)
          (v := {(weighted_choice env
            ((cellList (cellAt g (pickCell env (collectCandidates env ws g w h) s).1.1
              (pickCell env (collectCandidates env ws g w h) s).1.2)).map
              (fun n => (n, weightOf ws n)))
            (pickCell env (collectCandidates env ws g w h) s).2).1})
          (Finset.singleton_nonempty _) hne
        rcases List.mem_cons.mp hg' with hg' | hg'
        · subst hg'
          exact hne
        · rcases List.mem_cons.mp hg' with hg' | hg'
          · subst hg'
            exact hne1
          · rcases List.mem_append.mp hg' with hg' | hg'
            · exact prN hne1 g' (List.mem_cons_of_mem _ hg')
            · have hnepr := prN hne1 _ (traceOK_end_mem prT)
              exact ihN hnepr g' (List.mem_cons_of_mem _ hg')

lemma solveLoop_completed (env : Env S) (w h : Nat) (ws : List (String × ℚ)) :
    ∀ (fuel : Nat) (g : Grid) (s : S), SubVocab g →
      (uncollapsed g w h).card < fuel →
      (solveLoop env w h ws fuel g s).completed = true ∧
      (solveLoop env w h ws fuel g s).collapses ≤ (uncollapsed g w h).card := by
  intro fuel
  induction fuel with
  | zero =>
    intro g s hsv hlt
    omega
  | succ fuel ih =>
    intro g s hsv hlt
    rw [solveLoop]
    by_cases hce : (collectCandidates env ws g w h).isEmpty = true
    · rw [if_pos hce]
      exact ⟨rfl, Nat.zero_le _⟩
    · rw [if_neg hce]
      simp only []
      have hcne : collectCandidates env ws g w h ≠ [] := by
        simpa using hce
      obtain ⟨hxw, hyh, hcard⟩ := pickCell_bounds env ws g w h s hcne
      have hopt_ne : (cellAt g (pickCell env (collectCandidates env ws g w h) s).1.1
          (pickCell env (collectCandidates env ws g w h) s).1.2).Nonempty :=
        Finset.card_pos.mp (by omega)
      have hopt_sub := hsv (pickCell env (collectCandidates env ws g w h) s).1.1
        (pickCell env (collectCandidates env ws g w h) s).1.2
      have hchoice := choice_mem_options env ws
        (pickCell env (collectCandidates env ws g w h) s).2 hopt_sub hopt_ne
      obtain ⟨hshrink1, hcell1⟩ := setCell_singleton_facts hchoice
      obtain ⟨prT, prN⟩ := propagateAux_traceOK w h _ _ _
      have hprsh := traceOK_shrink prT
      have hsv1 := subVocab_of_shrink hsv hshrink1
      have hsvpr := subVocab_of_shrink hsv1 hprsh
      have hcell2 : (cellAt (propagateAux w h
          (totalCard (setCell g (pickCell env (collectCandidates env ws g w h) s).1.1
            (pickCell env (collectCandidates env ws g w h) s).1.2
            {(weighted_choice env
              ((cellList (cellAt g (pickCell env (collectCandidates env ws g w h) s).1.1
                (pickCell env (collectCandidates env ws g w h) s).1.2)).map
                (fun n => (n, weightOf ws n)))
              (pickCell env (collectCandidates env ws g w h) s).2).1}) + 2)
          (setCell g (pickCell env (collectCandidates env ws g w h) s).1.1
            (pickCell env (collectCandidates env ws g w h) s).1.2
            {(weighted_choice env
              ((cellList (cellAt g (pickCell env (collectCandidates env ws g w h) s).1.1
                (pickCell env (collectCandidates env ws g w h) s).1.2)).map
                (fun n => (n, weightOf ws n)))
              (pickCell env (collectCandidates env ws g w h) s).2).1})
          [((pickCell env (collectCandidates env ws g w h) s).1.1,
            (pickCell env (collectCandidates env ws g w h) s).1.2)]).grid
          (pickCell env (collectCandidates env ws g w h) s).1.1
          (pickCell env (collectCandidates env ws g w h) s).1.2).card ≤ 1 := by
        have hsub2 := hprsh (pickCell env (collectCandidates env ws g w h) s).1.1
          (pickCell env (collectCandidates env ws g w h) s).1.2
        rw [hcell1] at hsub2
        calc _ ≤ ({(weighted_choice env
              ((cellList (cellAt g (pickCell env (collectCandidates env ws g w h) s).1.1
                (pickCell env (collectCandidates env ws g w h) s).1.2)).map
                (fun n => (n, weightOf ws n)))
              (pickCell env (collectCandidates env ws g w h) s).2).1} : Finset String).card :=
            Finset.card_le_card hsub2
          _ = 1 := Finset.card_singleton _
      have hprog := uncollapsed_progress hxw hyh hcard
        (cellsShrink_trans hshrink1 hprsh) hcell2
      obtain ⟨ihc, ihb⟩ := ih _ _ hsvpr (by omega)
      refine ⟨ihc, ?_⟩
      omega

lemma cellAt_initGrid (w h x y : Nat) :
    cellAt (initGrid w h) x y = if x < w ∧ y < h then vocab else ∅ := by
  rw [cellAt_eq_getElem?, initGrid]
  by_cases hy : y < h
  · rw [List.getElem?_replicate, if_pos hy, Option.getD_some, List.getElem?_replicate]
    by_cases hx : x < w
    · rw [if_pos hx, Option.getD_some, if_pos ⟨hx, hy⟩]
    · rw [if_neg hx, Option.getD_none, if_neg (show ¬(x < w ∧ y < h) by tauto)]
  · rw [List.getElem?_replicate, if_neg hy, Option.getD_none,
      if_neg (show ¬(x < w ∧ y < h) by tauto)]
    simp

lemma initGrid_subVocab (w h : Nat) : SubVocab (initGrid w h) := by
  intro x y
  rw [cellAt_initGrid]
  by_cases hb : x < w ∧ y < h
  · rw [if_pos hb]
  · rw [if_neg hb]
    exact Finset.empty_subset _

lemma vocab_nonempty : vocab.Nonempty := ⟨"ocean", by decide⟩

lemma initGrid_nonempty (w h : Nat) : NonemptyCells (initGrid w h) w h := by
  intro x y hx hy
  rw [cellAt_initGrid, if_pos ⟨hx, hy⟩]
  exact vocab_nonempty

lemma chain_shrink_all {g : Grid} {tr : List Grid}
    (h : List.Chain' cellsShrink (g :: tr)) :
    ∀ g' ∈ g :: tr, cellsShrink g g' := by
  induction tr generalizing g with
  | nil =>
    intro g' hg'
    simp at hg'
    subst hg'
    exact cellsShrink_refl _
  | cons a tr ih =>
    rw [List.chain'_cons] at h
    intro g' hg'
    rcases List.mem_cons.mp hg' with hg' | hg'
    · subst hg'
      exact cellsShrink_refl _
    · exact cellsShrink_trans h.1 (ih h.2 g' hg')

/-- Claim C4: throughout every execution of `wave_function_collapse` (any
positive dimensions, any random source), every in-bounds cell's candidate
set is a non-empty subset of the tile vocabulary at every intermediate
state, and candidate sets only shrink (sizes never increase) from each
mutation step to the next. -/
theorem collapse_invariant {S : Type} (env : Env S) (s : S) (w h : Nat)
    (hw : 0 < w) (hh : 0 < h) :
    List.Chain' cellsShrink (initGrid w h :: (wfcFull env w h s).trace) ∧
    ∀ g ∈ initGrid w h :: (wfcFull env w h s).trace,
      NonemptyCells g w h ∧ SubVocab g := by
  have hsv := initGrid_subVocab w h
  obtain ⟨hT, hN⟩ := solveLoop_inv env w h (initial_tile_weights env s).1
    (w * h + 1) (initGrid w h) (initial_tile_weights env s).2 hsv
  have htr : (wfcFull env w h s).trace =
      (solveLoop env w h (initial_tile_weights env s).1 (w * h + 1) (initGrid w h)
        (initial_tile_weights env s).2).trace := rfl
  rw [htr]
  refine ⟨hT.1, ?_⟩
  intro g hg
  refine ⟨hN (initGrid_nonempty w h) g hg, ?_⟩
  exact subVocab_of_shrink hsv (chain_shrink_all hT.1 g hg)

/-- Witness for C4 at the concrete input `w = h = 1` with the trivial
oracle. -/
theorem collapse_invariant_witness :
    List.Chain' cellsShrink (initGrid 1 1 :: (wfcFull trivEnv 1 1 ()).trace) ∧
    ∀ g ∈ initGrid 1 1 :: (wfcFull trivEnv 1 1 ()).trace,
      NonemptyCells g 1 1 ∧ SubVocab g :=
  collapse_invariant trivEnv () 1 1 (by decide) (by decide)

/-- Claim C5: for every positive width and height and every random
source, the solver main loop terminates within its `w * h + 1` fuel (the
final iteration only observes that no cell is uncollapsed) and performs
at most `w * h` collapse events. -/
theorem solver_terminates {S : Type} (env : Env S) (s : S) (w h : Nat)
    (hw : 0 < w) (hh : 0 < h) :
    (wfcFull env w h s).completed = true ∧ (wfcFull env w h s).collapses ≤ w * h := by
  have hsv := initGrid_subVocab w h
  have hcard := uncollapsed_card_le (initGrid w h) w h
  obtain ⟨hc, hb⟩ := solveLoop_completed env w h (initial_tile_weights env s).1
    (w * h + 1) (initGrid w h) (initial_tile_weights env s).2 hsv (by omega)
  exact ⟨hc, le_trans hb hcard⟩

/-- Witness for C5 at the concrete input `w = h = 1` with the trivial
oracle. -/
theorem solver_terminates_witness :
    (wfcFull trivEnv 1 1 ()).completed = true ∧
    (wfcFull trivEnv 1 1 ()).collapses ≤ 1 * 1 :=
  solver_terminates trivEnv () 1 1 (by decide) (by decide)

/-- Claim C10: for every non-empty item list with non-negative weights and
every random source state, `_weighted_choice` terminates and returns the
name of some input element (the accumulation walk, or the last element as
fallback); it never raises and never fabricates a name. -/
theorem weighted_choice_safe {S : Type} (env : Env S) (s : S)
    (items : List (String × ℚ)) (hne : items ≠ [])
    (_hnn : ∀ p ∈ items, 0 ≤ p.2) :
    (weighted_choice env items s).1 ∈ items.map Prod.fst :=
  weighted_choice_mem env items s hne

/-- Witness for C10 at a concrete one-element list of weight zero. -/
theorem weighted_choice_safe_witness :
    (weighted_choice trivEnv [("a", 0)] ()).1 ∈ [("a", (0 : ℚ))].map Prod.fst :=
  weighted_choice_safe trivEnv () [("a", 0)] (by decide) (by decide)

set_option maxHeartbeats 1000000 in
/-- Claim C6: the propagation step pops a cell, takes the union of
`allowed_neighbors` over its candidate set, and for each in-bounds
4-connected neighbor replaces the neighbor's candidate set by its
intersection with that union and pushes the neighbor exactly when the
intersection strictly shrinks the set and is non-empty; an empty
intersection leaves the neighbor unchanged and pushes nothing. -/
theorem propagation_step_spec :
    (∀ (t : String) (O : Finset String), t ∈ allowedUnion O ↔ ∃ o ∈ O, t ∈ allowedOf o) ∧
    (∀ (n : String) (tt : TileType), lookupTile n = some tt →
      allowedOf n = tt.allowed_neighbors.toFinset) ∧
    (∀ (x y w h : Nat) (p : Nat × Nat),
      p ∈ neighborsOf x y w h ↔
        (p.1 < w ∧ p.2 < h ∧
          ((p.1 = x + 1 ∧ p.2 = y) ∨ (p.1 + 1 = x ∧ p.2 = y) ∨
           (p.1 = x ∧ p.2 = y + 1) ∨ (p.1 = x ∧ p.2 + 1 = y)))) ∧
    (∀ (allowed : Finset String) (g : Grid) (st : List (Nat × Nat))
      (nx ny : Nat) (rest : List (Nat × Nat)),
      stepNeighbors allowed g st ((nx, ny) :: rest) =
        if cellAt g nx ny ∩ allowed ⊂ cellAt g nx ny ∧ (cellAt g nx ny ∩ allowed).Nonempty
        then
          ⟨(stepNeighbors allowed (setCell g nx ny (cellAt g nx ny ∩ allowed))
              ((nx, ny) :: st) rest).grid,
           (stepNeighbors allowed (setCell g nx ny (cellAt g nx ny ∩ allowed))
              ((nx, ny) :: st) rest).stack,
           setCell g nx ny (cellAt g nx ny ∩ allowed) ::
             (stepNeighbors allowed (setCell g nx ny (cellAt g nx ny ∩ allowed))
              ((nx, ny) :: st) rest).trace,
           (stepNeighbors allowed (setCell g nx ny (cellAt g nx ny ∩ allowed))
              ((nx, ny) :: st) rest).updates + 1⟩
        else stepNeighbors allowed g st rest) ∧
    (∀ (w h fuel : Nat) (g : Grid) (cx cy : Nat) (rest : List (Nat × Nat)),
      propagateAux w h (fuel + 1) g ((cx, cy) :: rest) =
        ⟨(propagateAux w h fuel
            (stepNeighbors (allowedUnion (cellAt g cx cy)) g rest (neighborsOf cx cy w h)).grid
            (stepNeighbors (allowedUnion (cellAt g cx cy)) g rest (neighborsOf cx cy w h)).stack).grid,
          (stepNeighbors (allowedUnion (cellAt g cx cy)) g rest (neighborsOf cx cy w h)).trace ++
            (propagateAux w h fuel
              (stepNeighbors (allowedUnion (cellAt g cx cy)) g rest (neighborsOf cx cy w h)).grid
              (stepNeighbors (allowedUnion (cellAt g cx cy)) g rest (neighborsOf cx cy w h)).stack).trace,
          (stepNeighbors (allowedUnion (cellAt g cx cy)) g rest (neighborsOf cx cy w h)).updates +
            (propagateAux w h fuel
              (stepNeighbors (allowedUnion (cellAt g cx cy)) g rest (neighborsOf cx cy w h)).grid
              (stepNeighbors (allowedUnion (cellAt g cx cy)) g rest (neighborsOf cx cy w h)).stack).updates,
          (propagateAux w h fuel
            (stepNeighbors (allowedUnion (cellAt g cx cy)) g rest (neighborsOf cx cy w h)).grid
            (stepNeighbors (allowedUnion (cellAt g cx cy)) g rest (neighborsOf cx cy w h)).stack).completed⟩) := by
  refine ⟨?_, ?_, ?_, ?_, ?_⟩
  · intro t O
    exact Finset.mem_biUnion
  · intro n tt hl
    rw [allowedOf, hl]
    rfl
  · intro x y w h p
    obtain ⟨a, b⟩ := p
    simp only [neighborsOf, List.mem_append, List.mem_singleton, Prod.mk.injEq]
    split_ifs with h1 h2 h3 h4 h4 h3 h4 h4 h2 h3 h4 h4 h3 h4 h4 <;> simp <;> omega
  · intro allowed g st nx ny rest
    rw [stepNeighbors]
    have hiff : (cellAt g nx ny ∩ allowed ≠ cellAt g nx ny ∧
        (cellAt g nx ny ∩ allowed).Nonempty) ↔
        (cellAt g nx ny ∩ allowed ⊂ cellAt g nx ny ∧
          (cellAt g nx ny ∩ allowed).Nonempty) := by
      constructor
      · rintro ⟨h1, h2⟩
        exact ⟨ssubset_of_subset_of_ne Finset.inter_subset_left h1, h2⟩
      · rintro ⟨h1, h2⟩
        exact ⟨h1.ne, h2⟩
    exact if_congr hiff rfl rfl
  · intro w h fuel g cx cy rest
    conv_lhs => rw [propagateAux]

/-- Witness for C6: the allowed-neighbor set of the ocean tile. -/
theorem propagation_step_spec_witness :
    allowedOf "ocean" = (["ocean", "shore", "lowland"] : List String).toFinset :=
  propagation_step_spec.2.1 "ocean"
    ⟨"ocean", (-6000, -200), ["ocean", "shore", "lowland"], 1⟩ (by decide)

/-- Claim C1: the whole pipeline is a deterministic function of the seed,
the dimensions and the scale: two runs over the same random source and
inputs produce identical tile grids, height grids, biome grids and mesh
output.  (The embedding fixes the iteration order of Python string sets
to the catalog order; the rng is the only stateful input.) -/
theorem pipeline_deterministic {S : Type} (env : Env S) (seed w h : ℤ)
    (scale : ℚ) (r1 r2 : Option RunOut)
    (h1 : r1 = runFull env seed w h scale)
    (h2 : r2 = runFull env seed w h scale) : r1 = r2 :=
  h1.trans h2.symm

/-- Witness for C1 at a concrete seed and grid size. -/
theorem pipeline_deterministic_witness :
    runFull trivEnv 42 2 2 1 = runFull trivEnv 42 2 2 1 :=
  pipeline_deterministic trivEnv 42 2 2 1 (runFull trivEnv 42 2 2 1)
    (runFull trivEnv 42 2 2 1) rfl rfl

/-! ## Empirical tile weights -/

lemma drawSamples_length (env : Env S) : ∀ (n : Nat) (s : S),
    (drawSamples env n s).1.length = n := by
  intro n
  induction n with
  | zero => intro s; rfl
  | succ n ih =>
    intro s
    rw [drawSamples]
    simp only [List.length_cons]
    rw [ih]

lemma countMatches_le (tile : TileType) (samples : List ℚ) :
    countMatches tile samples ≤ samples.length := by
  rw [countMatches]
  exact List.length_filter_le _ _

lemma tileWeightsAux_mem (env : Env S) :
    ∀ (cat : List (String × TileType)) (s : S) (p : String × ℚ),
      p ∈ (tileWeightsAux env cat s).1 →
      ∃ tile : TileType, ∃ s0 : S, (p.1, tile) ∈ cat ∧
        p.2 = tile.weight *
          max (1/20) ((countMatches tile (drawSamples env 30 s0).1 : ℚ) / 30) := by
  intro cat
  induction cat with
  | nil => intro s p hp; simp [tileWeightsAux] at hp
  | cons q rest ih =>
    intro s p hp
    obtain ⟨n, tile⟩ := q
    rw [tileWeightsAux] at hp
    simp only [List.mem_cons] at hp
    rcases hp with hp | hp
    · refine ⟨tile, s, ?_, ?_⟩
      · rw [hp]
        exact List.mem_cons_self _ _
      · rw [hp]
    · obtain ⟨tile2, s0, hmem, heq⟩ := ih (drawSamples env 30 s).2 p hp
      exact ⟨tile2, s0, List.mem_cons_of_mem _ hmem, heq⟩

lemma catalog_weights_pos : ∀ q ∈ TILE_TYPES, 0 < q.2.weight := by
  intro q hq
  fin_cases hq <;> norm_num [TILE_TYPES]

/-- Claim C7: every entry of the empirical weight table equals the tile's
base weight times the larger of 1/20 and the fraction of that tile's 30
Monte-Carlo planet samples falling inclusively inside the tile's height
range; consequently it is at least 5 percent of the base weight and
strictly positive. -/
theorem empirical_weight_spec {S : Type} (env : Env S) (s : S)
    (p : String × ℚ) (hp : p ∈ (initial_tile_weights env s).1) :
    ∃ tile : TileType, ∃ s0 : S, (p.1, tile) ∈ TILE_TYPES ∧
      countMatches tile (drawSamples env 30 s0).1 ≤ 30 ∧
      p.2 = tile.weight *
        max (1/20) ((countMatches tile (drawSamples env 30 s0).1 : ℚ) / 30) ∧
      tile.weight * (1/20) ≤ p.2 ∧ 0 < p.2 := by
  obtain ⟨tile, s0, hmem, heq⟩ := tileWeightsAux_mem env TILE_TYPES s p hp
  have hwpos : 0 < tile.weight := catalog_weights_pos (p.1, tile) hmem
  have hm30 : countMatches tile (drawSamples env 30 s0).1 ≤ 30 := by
    have := countMatches_le tile (drawSamples env 30 s0).1
    rwa [drawSamples_length env 30 s0] at this
  have hmax : (1/20 : ℚ) ≤
      max (1/20) ((countMatches tile (drawSamples env 30 s0).1 : ℚ) / 30) :=
    le_max_left _ _
  refine ⟨tile, s0, hmem, hm30, heq, ?_, ?_⟩
  · rw [heq]
    exact mul_le_mul_of_nonneg_left hmax (le_of_lt hwpos)
  · rw [heq]
    exact mul_pos hwpos (lt_of_lt_of_le (by norm_num) hmax)

lemma samples_triv : ∀ s : Unit, (drawSamples trivEnv 30 s).1 = List.replicate 30 0 := by
  intro s
  norm_num [drawSamples, planet_sample, trivEnv, profileWalk, PLANET_PROFILES,
    List.replicate]

/-- Witness for C7: the ocean entry of the table computed with the
trivial oracle (all samples are 0, outside the ocean range, so the 5
percent floor applies). -/
theorem empirical_weight_spec_witness :
    ∃ tile : TileType, ∃ s0 : Unit, (("ocean", (1/20 : ℚ)).1, tile) ∈ TILE_TYPES ∧
      countMatches tile (drawSamples trivEnv 30 s0).1 ≤ 30 ∧
      ("ocean", (1/20 : ℚ)).2 = tile.weight *
        max (1/20) ((countMatches tile (drawSamples trivEnv 30 s0).1 : ℚ) / 30) ∧
      tile.weight * (1/20) ≤ ("ocean", (1/20 : ℚ)).2 ∧ 0 < ("ocean", (1/20 : ℚ)).2 :=
  empirical_weight_spec trivEnv () ("ocean", 1/20) (by
    rw [initial_tile_weights, TILE_TYPES, tileWeightsAux]
    simp only [samples_triv]
    have hcm : countMatches ⟨"ocean", (-6000, -200), ["ocean", "shore", "lowland"], 1⟩
        (List.replicate 30 0) = 0 := by
      rw [countMatches, List.filter_replicate]
      norm_num
    rw [hcm]
    norm_num)

/-! ## Heightfield synthesis -/

lemma lookup_mem : ∀ {l : List (String × TileType)} {k : String} {v : TileType},
    l.lookup k = some v → (k, v) ∈ l := by
  intro l
  induction l with
  | nil => intro k v h; simp [List.lookup] at h
  | cons p rest ih =>
    intro k v h
    obtain ⟨a, b⟩ := p
    rw [List.lookup] at h
    by_cases hk : (k == a) = true
    · rw [hk] at h
      simp only [Option.some.injEq] at h
      have hka : k = a := by simpa using hk
      rw [hka, h]
      exact List.mem_cons_self _ _
    · rw [Bool.not_eq_true] at hk
      rw [hk] at h
      exact List.mem_cons_of_mem _ (ih h)

lemma catalog_ranges_le : ∀ q ∈ TILE_TYPES, q.2.height_range.1 ≤ q.2.height_range.2 := by
  intro q hq
  fin_cases hq <;> norm_num [TILE_TYPES]

lemma hfCell_range (env : Env S) {name : String} (s : S) {t : TileType}
    (ht : lookupTile name = some t) :
    hfCell env name s = some
      (max (min (planet_sample env PLANET_PROFILES s).1 t.height_range.2) t.height_range.1,
        (planet_sample env PLANET_PROFILES s).2) ∧
    t.height_range.1 ≤
      max (min (planet_sample env PLANET_PROFILES s).1 t.height_range.2) t.height_range.1 ∧
    max (min (planet_sample env PLANET_PROFILES s).1 t.height_range.2) t.height_range.1 ≤
      t.height_range.2 := by
  have h12 : t.height_range.1 ≤ t.height_range.2 :=
    catalog_ranges_le (name, t) (lookup_mem ht)
  refine ⟨?_, le_max_right _ _, max_le (min_le_right _ _) h12⟩
  rw [hfCell, ht]

lemma hfRow_spec (env : Env S) (tiles : List (List String)) (y : Nat) :
    ∀ (xs : List Nat) (s : S),
      (∀ x ∈ xs, ∃ name, (tiles.getD y []).get? x = some name ∧
        (lookupTile name).isSome = true) →
      ∃ vals s2, hfRow env tiles y xs s = some (vals, s2) ∧
        vals.length = xs.length ∧
        ∀ i, i < xs.length →
          ∃ name t, (tiles.getD y []).get? (xs.getD i 0) = some name ∧
            lookupTile name = some t ∧
            t.height_range.1 ≤ vals.getD i 0 ∧ vals.getD i 0 ≤ t.height_range.2 := by
  intro xs
  induction xs with
  | nil =>
    intro s hv
    refine ⟨[], s, rfl, rfl, ?_⟩
    intro i hi
    simp at hi
  | cons x xs ih =>
    intro s hv
    obtain ⟨name, hget, hlk⟩ := hv x (List.mem_cons_self _ _)
    obtain ⟨t, ht⟩ := Option.isSome_iff_exists.mp hlk
    obtain ⟨hcell, hlo, hhi⟩ := hfCell_range env s ht
    obtain ⟨vals, s2, hrec, hlen, hspec⟩ :=
      ih (planet_sample env PLANET_PROFILES s).2
        (fun x2 hx2 => hv x2 (List.mem_cons_of_mem _ hx2))
    refine ⟨max (min (planet_sample env PLANET_PROFILES s).1 t.height_range.2)
        t.height_range.1 :: vals, s2, ?_, by simp [hlen], ?_⟩
    · rw [hfRow, hget]
      simp only []
      rw [hcell]
      simp only []
      rw [hrec]
    · intro i hi
      cases i with
      | zero =>
        refine ⟨name, t, ?_, ht, ?_, ?_⟩
        · rw [List.getD_cons_zero]
          exact hget
        · rw [List.getD_cons_zero]
          exact hlo
        · rw [List.getD_cons_zero]
          exact hhi
      | succ i =>
        have hi2 : i < xs.length := by simpa using hi
        obtain ⟨name2, t2, hg2, hl2, hb1, hb2⟩ := hspec i hi2
        exact ⟨name2, t2, by rwa [List.getD_cons_succ], hl2,
          by rwa [List.getD_cons_succ], by rwa [List.getD_cons_succ]⟩

lemma hfRows_spec (env : Env S) (tiles : List (List String)) (w : Nat) :
    ∀ (ys : List Nat) (s : S),
      (∀ y ∈ ys, ∀ x, x < w → ∃ name, (tiles.getD y []).get? x = some name ∧
        (lookupTile name).isSome = true) →
      ∃ rows s2, hfRows env tiles w ys s = some (rows, s2) ∧
        rows.length = ys.length ∧
        ∀ j, j < ys.length →
          (rows.getD j []).length = w ∧
          ∀ x, x < w →
            ∃ name t, (tiles.getD (ys.getD j 0) []).get? x = some name ∧
              lookupTile name = some t ∧
              t.height_range.1 ≤ (rows.getD j []).getD x 0 ∧
              (rows.getD j []).getD x 0 ≤ t.height_range.2 := by
  intro ys
  induction ys with
  | nil =>
    intro s hv
    refine ⟨[], s, rfl, rfl, ?_⟩
    intro j hj
    simp at hj
  | cons y ys ih =>
    intro s hv
    have hrow := hfRow_spec env tiles y (List.range w) s
    have hv1 : ∀ x ∈ List.range w, ∃ name, (tiles.getD y []).get? x = some name ∧
        (lookupTile name).isSome = true := by
      intro x hx
      exact hv y (List.mem_cons_self _ _) x (List.mem_range.mp hx)
    obtain ⟨vals, s2, hr, hlen, hspec⟩ := hrow hv1
    obtain ⟨rows, s3, hrr, hrlen, hrspec⟩ :=
      ih s2 (fun y2 hy2 => hv y2 (List.mem_cons_of_mem _ hy2))
    refine ⟨vals :: rows, s3, ?_, by simp [hrlen], ?_⟩
    · rw [hfRows, hr]
      simp only []
      rw [hrr]
    · intro j hj
      cases j with
      | zero =>
        rw [List.getD_cons_zero, List.getD_cons_zero]
        constructor
        · rw [hlen, List.length_range]
        · intro x hx
          have := hspec x (by rwa [List.length_range])
          rwa [List.getD_eq_getElem (List.range w) 0 (by rwa [List.length_range]),
            List.getElem_range] at this
      | succ j =>
        have hj2 : j < ys.length := by simpa using hj
        rw [List.getD_cons_succ, List.getD_cons_succ]
        exact hrspec j hj2

/-- Claim C8: for every valid rectangular tile grid and any random state,
`generate_heightfield` succeeds and every synthesized elevation lies
inclusively inside the height range of the tile assigned to its cell;
the per-cell value is the single planet sample clamped into the range
(clamp, not reject-and-resample). -/
theorem heightfield_range {S : Type} (env : Env S) (tiles : List (List String)) (s : S)
    (hne : tiles ≠ [])
    (hv : ∀ row ∈ tiles, ∀ n ∈ row, (lookupTile n).isSome = true)
    (hrect : ∀ row ∈ tiles, row.length = (tiles.headD []).length) :
    (∀ (name : String) (t : TileType) (s3 : S), lookupTile name = some t →
      hfCell env name s3 = some
        (max (min (planet_sample env PLANET_PROFILES s3).1 t.height_range.2)
          t.height_range.1,
         (planet_sample env PLANET_PROFILES s3).2)) ∧
    ∃ heights s2, generate_heightfield env tiles s = some (heights, s2) ∧
      heights.length = tiles.length ∧
      ∀ y x, y < tiles.length → x < (tiles.headD []).length →
        ∃ name t, (tiles.getD y []).get? x = some name ∧ lookupTile name = some t ∧
          t.height_range.1 ≤ (heights.getD y []).getD x 0 ∧
          (heights.getD y []).getD x 0 ≤ t.height_range.2 := by
  constructor
  · intro name t s3 hl
    exact (hfCell_range env s3 hl).1
  · cases tiles with
    | nil => exact absurd rfl hne
    | cons r0 rest =>
      have hv2 : ∀ y ∈ List.range (r0 :: rest).length, ∀ x, x < r0.length →
          ∃ name, ((r0 :: rest).getD y []).get? x = some name ∧
            (lookupTile name).isSome = true := by
        intro y hy x hx
        have hylt : y < (r0 :: rest).length := List.mem_range.mp hy
        have hrowmem : (r0 :: rest).getD y [] ∈ r0 :: rest := by
          rw [List.getD_eq_getElem (r0 :: rest) [] hylt]
          exact List.getElem_mem hylt
        have hrl : ((r0 :: rest).getD y []).length = r0.length := by
          rw [hrect ((r0 :: rest).getD y []) hrowmem]
          rfl
        have hxlt : x < ((r0 :: rest).getD y []).length := by omega
        refine ⟨((r0 :: rest).getD y []).get ⟨x, hxlt⟩, ?_, ?_⟩
        · exact List.get?_eq_get hxlt
        · exact hv ((r0 :: rest).getD y []) hrowmem _ (List.get_mem _ _ _)
      obtain ⟨rows, s2, hr, hlen, hspec⟩ :=
        hfRows_spec env (r0 :: rest) r0.length (List.range (r0 :: rest).length) s hv2
      refine ⟨rows, s2, ?_, by rwa [List.length_range] at hlen, ?_⟩
      · rw [generate_heightfield, hr]
      · intro y x hy hx
        have hy2 : y < (List.range (r0 :: rest).length).length := by
          rwa [List.length_range]
        obtain ⟨hrowlen, hcells⟩ := hspec y hy2
        have := hcells x (by simpa using hx)
        rwa [List.getD_eq_getElem (List.range (r0 :: rest).length) 0 hy2,
          List.getElem_range] at this

/-- Witness for C8 at the concrete one-cell grid containing an ocean
tile, with the trivial oracle. -/
theorem heightfield_range_witness :
    (∀ (name : String) (t : TileType) (s3 : Unit), lookupTile name = some t →
      hfCell trivEnv name s3 = some
        (max (min (planet_sample trivEnv PLANET_PROFILES s3).1 t.height_range.2)
          t.height_range.1,
         (planet_sample trivEnv PLANET_PROFILES s3).2)) ∧
    ∃ heights s2, generate_heightfield trivEnv [["ocean"]] () = some (heights, s2) ∧
      heights.length = ([["ocean"]] : List (List String)).length ∧
      ∀ y x, y < ([["ocean"]] : List (List String)).length →
        x < (([["ocean"]] : List (List String)).headD []).length →
        ∃ name t, (([["ocean"]] : List (List String)).getD y []).get? x = some name ∧
          lookupTile name = some t ∧
          t.height_range.1 ≤ (heights.getD y []).getD x 0 ∧
          (heights.getD y []).getD x 0 ≤ t.height_range.2 :=
  heightfield_range trivEnv [["ocean"]] () (by decide) (by decide) (by decide)

/-! ## Distance to ocean -/

lemma find?_first {α : Type} (p : α → Bool) :
    ∀ (l : List α) (a : α), l.find? p = some a →
      ∃ l1 l2, l = l1 ++ a :: l2 ∧ (∀ b ∈ l1, p b = false) ∧ p a = true := by
  intro l
  induction l with
  | nil => intro a h; simp [List.find?] at h
  | cons c rest ih =>
    intro a h
    rw [List.find?] at h
    by_cases hc : p c = true
    · rw [hc] at h
      simp only [Option.some.injEq] at h
      subst h
      exact ⟨[], rest, rfl, by simp, hc⟩
    · rw [Bool.not_eq_true] at hc
      rw [hc] at h
      simp only [] at h
      obtain ⟨l1, l2, he, hall, hpa⟩ := ih a h
      refine ⟨c :: l1, l2, by rw [he]; rfl, ?_, hpa⟩
      intro b hb
      rcases List.mem_cons.mp hb with hb | hb
      · rw [hb]
        exact hc
      · exact hall b hb

lemma intRange_mem {r : Nat} {z : ℤ} (h : z ∈ intRange r) :
    -(r : ℤ) ≤ z ∧ z ≤ r := by
  rw [intRange] at h
  rcases List.mem_map.mp h with ⟨i, hi, he⟩
  rw [List.mem_range] at hi
  omega

lemma scanOffsets_chebyshev {d : ℤ × ℤ} (h : d ∈ scanOffsets) :
    max |d.1| |d.2| ≤ 10 := by
  rw [scanOffsets] at h
  rcases List.mem_flatMap.mp h with ⟨r, hr, hd⟩
  rcases List.mem_map.mp hr with ⟨i, hi, hie⟩
  rw [List.mem_range] at hi
  rcases List.mem_flatMap.mp hd with ⟨dx, hdx, hd2⟩
  rcases List.mem_map.mp hd2 with ⟨dy, hdy, hde⟩
  obtain ⟨hx1, hx2⟩ := intRange_mem hdx
  obtain ⟨hy1, hy2⟩ := intRange_mem hdy
  subst hde
  subst hie
  simp only []
  rw [max_le_iff, abs_le, abs_le]
  omega

/-- Claim C9: `_distance_to_ocean` returns 0 on an ocean cell; returns
the saturation value 10 when no in-bounds ocean cell exists within
Chebyshev distance 10; otherwise returns `math.hypot` of the first
matching offset in the expanding-square scan order (every earlier offset
in scan order fails the test); and on the concrete grid `oceanDemo` the
offset found, `(-2, -2)`, is not the one of minimal Euclidean length,
since `(0, 2)` is also an in-bounds ocean offset with smaller squared
length. -/
theorem distance_to_ocean_spec {S : Type} (env : Env S)
    (tiles : List (List String)) (x y : Nat) :
    ((tiles.getD y []).getD x "" = "ocean" → distance_to_ocean env tiles x y = 0) ∧
    ((∀ d : ℤ × ℤ, max |d.1| |d.2| ≤ 10 → isOceanOffset tiles x y d = false) →
      (tiles.getD y []).getD x "" ≠ "ocean" →
      distance_to_ocean env tiles x y = 10) ∧
    (∀ d : ℤ × ℤ, (tiles.getD y []).getD x "" ≠ "ocean" →
      scanOffsets.find? (isOceanOffset tiles x y) = some d →
      distance_to_ocean env tiles x y = env.qhypot d.1 d.2 ∧
      isOceanOffset tiles x y d = true ∧
      ∃ l1 l2, scanOffsets = l1 ++ d :: l2 ∧
        ∀ e ∈ l1, isOceanOffset tiles x y e = false) ∧
    (scanOffsets.find? (isOceanOffset oceanDemo 2 2) = some (-2, -2) ∧
      isOceanOffset oceanDemo 2 2 (0, 2) = true ∧
      (0 : ℤ) * 0 + 2 * 2 < (-2 : ℤ) * (-2) + (-2) * (-2)) := by
  refine ⟨?_, ?_, ?_, ?_, ?_, ?_⟩
  · intro h
    rw [distance_to_ocean, if_pos (by simpa using h)]
  · intro hnone hno
    have hfe : scanOffsets.find? (isOceanOffset tiles x y) = none := by
      rw [List.find?_eq_none]
      intro e he
      rw [hnone e (scanOffsets_chebyshev he)]
      simp
    rw [distance_to_ocean, if_neg (by simpa using hno), hfe]
  · intro d hno hfind
    obtain ⟨l1, l2, hsplit, hall, hpd⟩ := find?_first _ scanOffsets d hfind
    refine ⟨?_, hpd, l1, l2, hsplit, hall⟩
    rw [distance_to_ocean, if_neg (by simpa using hno), hfind]
  · decide
  · decide
  · decide

/-- Witness for C9: the demo grid's own ocean corner has distance 0. -/
theorem distance_to_ocean_spec_witness :
    distance_to_ocean trivEnv oceanDemo 0 0 = 0 :=
  (distance_to_ocean_spec trivEnv oceanDemo 0 0).1 (by decide)

/-! ## Concrete runs: the 1x1 grid and degenerate dimensions -/

lemma propagateAux_one_cell (g : Grid) (fuel : Nat) :
    propagateAux 1 1 (fuel + 1) g [(0, 0)] = ⟨g, [], 0, true⟩ := by
  rw [propagateAux]
  have hnb : neighborsOf 0 0 1 1 = [] := rfl
  rw [hnb]
  simp [stepNeighbors, propagateAux]

lemma cellAt_one (v : Finset String) : cellAt [[v]] 0 0 = v := rfl

lemma collectCandidates_one (env : Env S) (ws : List (String × ℚ)) (g : Grid) :
    collectCandidates env ws g 1 1 =
      if 1 < (cellAt g 0 0).card then [(0, 0, entropy env ws (cellAt g 0 0))] else [] := by
  rw [collectCandidates]
  have hr1 : List.range 1 = [0] := rfl
  rw [hr1]
  by_cases hc : 1 < (cellAt g 0 0).card
  · rw [if_pos hc]
    simp [hc]
  · rw [if_neg hc]
    simp [hc]

lemma pickCell_single (env : Env S) (c : Nat × Nat × ℚ) (s : S) :
    pickCell env [c] s = ((c.1, c.2.1), (env.choose 1 s).2) := by
  rw [pickCell]
  simp [minQ, Nat.mod_one]

lemma solveLoop_collapsed (env : Env S) (ws : List (String × ℚ)) (fuel : Nat)
    (c : String) (s : S) :
    solveLoop env 1 1 ws (fuel + 1) [[{c}]] s = ⟨[[{c}]], s, 0, 0, [], true⟩ := by
  rw [solveLoop]
  have hc : collectCandidates env ws [[{c}]] 1 1 = [] := by
    rw [collectCandidates_one]
    rw [if_neg]
    rw [cellAt_one, Finset.card_singleton]
    omega
  rw [hc]
  rfl

lemma wfcFull_one (env : Env S) (s : S) :
    ∃ (c : String) (s2 : S),
      wfcFull env 1 1 s = ⟨[[{c}]], s2, 1, 0, [[[{c}]]], true⟩ := by
  rw [wfcFull]
  rw [solveLoop]
  rw [collectCandidates_one]
  rw [if_pos (by decide : 1 < (cellAt (initGrid 1 1) 0 0).card)]
  rw [if_neg (by simp : ¬([(0, 0, entropy env (initial_tile_weights env s).1 (cellAt (initGrid 1 1) 0 0))].isEmpty = true))]
  simp only []
  rw [pickCell_single]
  simp only []
  rw [show setCell (initGrid 1 1) 0 0 {(weighted_choice env ((cellList (cellAt (initGrid 1 1) 0 0)).map
      (fun n => (n, weightOf (initial_tile_weights env s).1 n)))
      (env.choose 1 (initial_tile_weights env s).2).2).1} =
    [[{(weighted_choice env ((cellList (cellAt (initGrid 1 1) 0 0)).map
      (fun n => (n, weightOf (initial_tile_weights env s).1 n)))
      (env.choose 1 (initial_tile_weights env s).2).2).1}]] from rfl]
  rw [show ∀ g1 : Grid, totalCard g1 + 2 = (totalCard g1 + 1) + 1 from fun g1 => by omega]
  rw [propagateAux_one_cell]
  simp only []
  rw [show (1 * 1 : Nat) = 0 + 1 from rfl]
  rw [solveLoop_collapsed]
  exact ⟨(weighted_choice env
      (List.map (fun n => (n, weightOf (initial_tile_weights env s).1 n))
        (cellList (cellAt (initGrid 1 1) 0 0)))
      (env.choose 1 (initial_tile_weights env s).2).2).1,
    (weighted_choice env
      (List.map (fun n => (n, weightOf (initial_tile_weights env s).1 n))
        (cellList (cellAt (initGrid 1 1) 0 0)))
      (env.choose 1 (initial_tile_weights env s).2).2).2, rfl⟩


lemma assign_biomes_single (env : Env S) (row : List String)
    (heights : List (List ℚ)) (s : S) :
    assign_biomes env [row] heights s = none := by
  rw [assign_biomes]
  simp

/-- Claim C2 (code bug): on a 1x1 grid the solver collapses the single
cell in exactly one outer iteration with zero propagation updates and
completes; but the full run returns no mesh, because `assign_biomes`
evaluates `y / (height - 1)` with `height = 1`, a ZeroDivisionError that
aborts the program before `export_obj` -- so no 1-vertex mesh is ever
exported. -/
theorem one_by_one_run {S : Type} (env : Env S) (s : S) (seed : ℤ) (scale : ℚ) :
    (wfcFull env 1 1 s).collapses = 1 ∧
    (wfcFull env 1 1 s).updates = 0 ∧
    (wfcFull env 1 1 s).completed = true ∧
    runFull env seed 1 1 scale = none := by
  obtain ⟨c, s2, hw⟩ := wfcFull_one env s
  refine ⟨by rw [hw], by rw [hw], by rw [hw], ?_⟩
  obtain ⟨c2, s22, hw2⟩ := wfcFull_one env (env.seedInit seed)
  rw [runFull]
  try simp only []
  have hwf : wave_function_collapse env (1 : ℤ).toNat (1 : ℤ).toNat (env.seedInit seed) =
      ([[cellFirst {c2}]], s22) := by
    rw [wave_function_collapse]
    rw [show ((1 : ℤ).toNat) = 1 from rfl]
    rw [hw2]
    rfl
  rw [hwf]
  try simp only []
  cases hgh : generate_heightfield env [[cellFirst {c2}]] s22 with
  | none => rfl
  | some hp =>
    simp only []
    rw [assign_biomes_single]

lemma collectCandidates_zero_w (env : Env S) (ws : List (String × ℚ)) (g : Grid) (h : Nat) :
    collectCandidates env ws g 0 h = [] := by
  simp [collectCandidates]

lemma collectCandidates_zero_h (env : Env S) (ws : List (String × ℚ)) (g : Grid) (w : Nat) :
    collectCandidates env ws g w 0 = [] := by
  simp [collectCandidates]

lemma solveLoop_no_cands (env : Env S) (w h : Nat) (ws : List (String × ℚ))
    (fuel : Nat) (g : Grid) (s : S)
    (hc : collectCandidates env ws g w h = []) :
    solveLoop env w h ws (fuel + 1) g s = ⟨g, s, 0, 0, [], true⟩ := by
  rw [solveLoop, hc]
  rfl

lemma wfc_zero_w (env : Env S) (s : S) (h : Nat) :
    wave_function_collapse env 0 h s =
      (List.replicate h [], (initial_tile_weights env s).2) := by
  rw [wave_function_collapse, wfcFull]
  try simp only []
  rw [solveLoop_no_cands env 0 h _ _ _ _ (collectCandidates_zero_w env _ _ h)]
  simp only [initGrid]
  rw [show List.replicate 0 vocab = ([] : List (Finset String)) from rfl]
  simp [List.map_replicate]

lemma wfc_zero_h (env : Env S) (s : S) (w : Nat) :
    wave_function_collapse env w 0 s = ([], (initial_tile_weights env s).2) := by
  rw [wave_function_collapse, wfcFull]
  try simp only []
  rw [solveLoop_no_cands env w 0 _ _ _ _ (collectCandidates_zero_h env _ _ w)]
  simp only [initGrid]
  rfl

lemma hfRows_width_zero (env : Env S) (tiles : List (List String)) :
    ∀ (ys : List Nat) (s : S),
      hfRows env tiles 0 ys s = some (List.replicate ys.length [], s) := by
  intro ys
  induction ys with
  | nil => intro s; rfl
  | cons y ys ih =>
    intro s
    rw [hfRows]
    rw [show List.range 0 = ([] : List Nat) from rfl]
    rw [show hfRow env tiles y [] s = some ([], s) from rfl]
    try simp only []
    rw [ih]
    simp [List.replicate_succ]

lemma abRows_width_zero (env : Env S) (tiles : List (List String))
    (heights : List (List ℚ)) (hgt : Nat) :
    ∀ (ys : List Nat) (s : S),
      abRows env tiles heights 0 hgt ys s = some (List.replicate ys.length [], s) := by
  intro ys
  induction ys with
  | nil => intro s; rfl
  | cons y ys ih =>
    intro s
    rw [abRows]
    try simp only []
    rw [show List.range 0 = ([] : List Nat) from rfl]
    rw [show abRow env tiles heights (((y : ℚ) / ((hgt : ℚ) - 1)) * 2 - 1) y [] s =
      some ([], s) from rfl]
    try simp only []
    rw [ih]
    simp [List.replicate_succ]

/-- Claim C3 (code bug): `parse_args`/`main` perform no width/height
validation, so the solver is invoked on non-positive dimensions instead
of the input being rejected at the boundary: with width 0 the whole
pipeline runs to completion on degenerate empty-row grids and exports an
empty mesh, and with height 0 the run aborts with an IndexError inside
`generate_heightfield` (after the solver has already run). -/
theorem degenerate_dims_reach_solver {S : Type} (env : Env S) (seed : ℤ) (scale : ℚ) :
    (wave_function_collapse env 0 5 (env.seedInit seed)).1 = List.replicate 5 [] ∧
    (wave_function_collapse env 5 0 (env.seedInit seed)).1 = [] ∧
    runFull env seed 0 5 scale =
      some ⟨List.replicate 5 [], List.replicate 5 [], List.replicate 5 [], ([], [])⟩ ∧
    runFull env seed 5 0 scale = none := by
  refine ⟨by rw [wfc_zero_w], by rw [wfc_zero_h], ?_, ?_⟩
  · rw [runFull]
    try simp only []
    rw [show ((0 : ℤ).toNat) = 0 from rfl, show ((5 : ℤ).toNat) = 5 from rfl]
    rw [wfc_zero_w]
    try simp only []
    have hgh : generate_heightfield env (List.replicate 5 [])
        (initial_tile_weights env (env.seedInit seed)).2 =
        some (List.replicate 5 [], (initial_tile_weights env (env.seedInit seed)).2) := by
      rw [show (List.replicate 5 [] : List (List String)) =
        [] :: List.replicate 4 [] from rfl]
      rw [generate_heightfield]
      rw [show ([] : List String).length = 0 from rfl]
      rw [show ([] :: List.replicate 4 [] : List (List String)).length = 5 from rfl]
      rw [hfRows_width_zero]
      rfl
    rw [hgh]
    try simp only []
    have hab : assign_biomes env (List.replicate 5 []) (List.replicate 5 [])
        (initial_tile_weights env (env.seedInit seed)).2 =
        some (List.replicate 5 [], (initial_tile_weights env (env.seedInit seed)).2) := by
      rw [show (List.replicate 5 [] : List (List String)) =
        [] :: List.replicate 4 [] from rfl]
      rw [assign_biomes]
      try simp only []
      rw [if_neg (by simp)]
      rw [show ([] : List String).length = 0 from rfl]
      rw [show ([] :: List.replicate 4 [] : List (List String)).length = 5 from rfl]
      rw [abRows_width_zero]
      rfl
    rw [hab]
    try simp only []
    have hexp : export_obj (List.replicate 5 []) scale = some ([], []) := by
      rw [show (List.replicate 5 [] : List (List ℚ)) = [] :: List.replicate 4 [] from rfl]
      rw [export_obj]
      simp
    rw [hexp]
  · rw [runFull]
    try simp only []
    rw [show ((5 : ℤ).toNat) = 5 from rfl, show ((0 : ℤ).toNat) = 0 from rfl]
    rw [wfc_zero_h]
    rfl

end Terrain
